import Mathlib

/-!
# Verification of the vg-manager reconciliation engine

Shallow embedding of the per-node volume-group reconciliation code
(`pkg/vgmanager`): device selection, volume-group create/extend, thin-pool
extension, device wiping, the lvmd registry bookkeeping, and the
reconcile / delete passes of the controller.

External collaborators (the Kubernetes client, the command executor, wipefs,
dmsetup, the lvmd file store) are modelled as environments that record the
outcome of each call; the control flow of the repository's functions over
those outcomes is translated line by line from the Go source.  Host-mutating
and bookkeeping calls are recorded in an explicit trace so that temporal
claims (ordering of operations within one pass) become statements about
lists.
-/

namespace VgManager

/-- A thin-pool sub-entry of an lvmd device class
(`lvmd.ThinPoolConfig`: name and overprovision ratio). -/
structure ThinPoolClassConfig where
  name : String
  overprovisionRatio : ℚ
deriving DecidableEq, Repr

/-- One device-class entry of the lvmd registry config (`lvmd.DeviceClass`).
`typeThin` models `Type == lvmd.TypeThin`. -/
structure DeviceClass where
  name : String
  volumeGroup : String
  default : Bool
  typeThin : Bool
  thinPoolConfig : ThinPoolClassConfig
deriving DecidableEq, Repr

/-- The lvmd registry config file contents (`lvmd.Config`):
socket path plus the ordered device-class entries. -/
structure LvmdConfig where
  socketName : String
  deviceClasses : List DeviceClass
deriving DecidableEq, Repr

/-- Thin-pool part of the volume-group spec
(`lvmv1alpha1.ThinPoolConfig`: name, size percent, overprovision ratio). -/
structure ThinPoolConfig where
  name : String
  sizePercent : ℤ
  overprovisionRatio : ℚ
deriving DecidableEq, Repr

/-- An observed volume group (`vgmanager.VolumeGroup`): name, member physical
volumes and the reported total size string (e.g. `"100g"`). -/
structure VolumeGroup where
  name : String
  pvs : List String
  vgSize : String
deriving DecidableEq, Repr

/-- A block device as listed by lsblk (`internal.BlockDevice` /
`lsblk.BlockDevice`): kernel name, the device path assigned during
selection, and child devices (partitions).  The recursive children force an
inductive type; accessors below recover the record view of the source. -/
inductive BlockDevice where
  | mk (kname : String) (devicePath : String) (children : List BlockDevice)

/-- `BlockDevice.KName`. -/
def BlockDevice.kname : BlockDevice → String
  | .mk k _ _ => k

/-- `BlockDevice.DevicePath`. -/
def BlockDevice.devicePath : BlockDevice → String
  | .mk _ p _ => p

/-- `BlockDevice.Children`. -/
def BlockDevice.children : BlockDevice → List BlockDevice
  | .mk _ _ cs => cs

/-- `BlockDevice.HasChildren()` — true iff the child list is non-empty. -/
def BlockDevice.hasChildren (d : BlockDevice) : Bool :=
  !d.children.isEmpty

/-- Functional update of the `DevicePath` field
(the assignment `blockDevice.DevicePath = devicePath` in `getValidDevice`). -/
def BlockDevice.setDevicePath : BlockDevice → String → BlockDevice
  | .mk k _ cs, p => .mk k p cs

/-- The device selector of a volume-group spec
(`lvmv1alpha1.DeviceSelector`): required paths, optional paths and the
force-wipe flag. -/
structure DeviceSelector where
  paths : List String
  optionalPaths : List String
  forceWipeDevicesAndDestroyAllData : Option Bool
deriving DecidableEq, Repr

/-- A host command invocation handed to the executor: binary and argument
vector (`executor.ExecuteCommandWithOutputAsHost(cmd, args...)`). -/
structure Command where
  cmd : String
  args : List String
deriving DecidableEq, Repr

/-! ## addDevicesToVG (vgmanager.go)

`addDevicesToVG(ctx, vgs, vgName, devices)` creates or extends a volume
group.  The executor is modelled by the outcome `execResult` of the single
command it may issue; the returned trace lists the commands issued. -/

/-- Errors surfaced by `addDevicesToVG`. -/
inductive VgAddErr where
  | zeroDevices
  | execFailed
deriving DecidableEq, Repr

/-- Shallow embedding of `addDevicesToVG`: rejects an empty device list,
otherwise chooses `vgextend` when a volume group of the given name is in
`vgs` and `vgcreate` otherwise, and issues one command whose arguments are
the group name followed by each device's `DevicePath` (falling back to
`KName` when the path is empty). -/
def addDevicesToVG (vgs : List VolumeGroup) (vgName : String)
    (devices : List BlockDevice) (execResult : Except Unit Unit) :
    List Command × Except VgAddErr Unit :=
  if devices.length < 1 then
    ([], .error .zeroDevices)
  else
    let vgFound := vgs.any (fun vg => vg.name == vgName)
    let cmd := if vgFound then "/usr/sbin/vgextend" else "/usr/sbin/vgcreate"
    let args := vgName :: devices.map
      (fun d => if d.devicePath != "" then d.devicePath else d.kname)
    ([⟨cmd, args⟩],
      match execResult with
      | .ok _ => .ok ()
      | .error _ => .error .execFailed)

end VgManager

namespace VgManager

/-- **C5.** For every call to `addDevicesToVG` with an empty device list, a
failure is returned and no host command (neither create nor extend) is
invoked. -/
theorem addDevicesToVG_empty_devices_fails (vgs : List VolumeGroup)
    (vgName : String) (execResult : Except Unit Unit) :
    addDevicesToVG vgs vgName [] execResult = ([], .error .zeroDevices) := by
  rfl

/-- **C4.** For every call to `addDevicesToVG` with a non-empty device list,
exactly one command is invoked; it is `vgcreate` iff no volume group with
the given name is present in the supplied list and `vgextend` iff one is
present, and its arguments are the group name followed by the path of every
supplied device. -/
theorem addDevicesToVG_create_iff_absent (vgs : List VolumeGroup)
    (vgName : String) (devices : List BlockDevice)
    (execResult : Except Unit Unit) (hne : devices ≠ []) :
    ∃ c, (addDevicesToVG vgs vgName devices execResult).1 = [c] ∧
      c.args = vgName :: devices.map
        (fun d => if d.devicePath != "" then d.devicePath else d.kname) ∧
      (c.cmd = "/usr/sbin/vgcreate" ↔ ¬ ∃ vg ∈ vgs, vg.name = vgName) ∧
      (c.cmd = "/usr/sbin/vgextend" ↔ ∃ vg ∈ vgs, vg.name = vgName) := by
  have hlen : ¬ devices.length < 1 := by
    simpa [Nat.lt_one_iff, List.length_eq_zero] using hne
  have hmem : (∃ vg ∈ vgs, vg.name = vgName) ↔
      vgs.any (fun vg => vg.name == vgName) = true := by
    simp [List.any_eq_true]
  cases hvg : vgs.any (fun vg => vg.name == vgName) with
  | true =>
    refine ⟨⟨"/usr/sbin/vgextend", _⟩, ?_, rfl, ?_, ?_⟩
    · simp [addDevicesToVG, if_neg hlen, hvg]
    · constructor
      · intro h; simp at h
      · intro h; exact absurd (hmem.mpr hvg) h
    · constructor
      · intro _; exact hmem.mpr hvg
      · intro _; rfl
  | false =>
    refine ⟨⟨"/usr/sbin/vgcreate", _⟩, ?_, rfl, ?_, ?_⟩
    · simp [addDevicesToVG, if_neg hlen, hvg]
    · constructor
      · intro _
        intro hex
        rw [hmem] at hex
        rw [hvg] at hex
        simp at hex
      · intro _; rfl
    · constructor
      · intro h; simp at h
      · intro hex
        rw [hmem] at hex
        rw [hvg] at hex
        simp at hex
/-! ## Device selection (devices.go)

`filterMatchingDevices` resolves the selector's required and optional paths
against the block-device catalog and the observed volume groups.  Symlink
resolution (`filepath.EvalSymlinks`) is modelled by the environment function
`resolve : String → Option String`; each resolution attempt is recorded in
the trace so that "raised before any resolution" is a statement about the
trace. -/

/-- `isDeviceAlreadyPartOfVG(vgs, diskName, volumeGroup)`: the disk is a
physical volume of the volume group carrying the spec's name. -/
def isDeviceAlreadyPartOfVG (vgs : List VolumeGroup) (diskName : String)
    (vgName : String) : Bool :=
  vgs.any (fun vg => vg.name == vgName && vg.pvs.any (fun pv => pv == diskName))

/-- `hasExactDisk(blockDevices, deviceName)`: find the device with the given
kernel name, recursing into children, else report absence. -/
def hasExactDisk : List BlockDevice → String → Option BlockDevice
  | [], _ => none
  | .mk k p cs :: rest, deviceName =>
    if k == deviceName then some (.mk k p cs)
    else
      match hasExactDisk cs deviceName with
      | some dev => some dev
      | none => hasExactDisk rest deviceName

/-- The shared pass of `checkDuplicateDeviceSelectorPaths` over required then
optional paths (the Go code runs two loops over one shared `uniquePaths` /
`duplicatePaths` pair of sets, which equals one pass over the concatenation;
the sets are modelled as insertion-ordered duplicate-free lists). -/
def collectDups (seen dups : List String) : List String → List String × List String
  | [] => (seen, dups)
  | p :: rest =>
    if p ∈ seen then
      collectDups seen (if p ∈ dups then dups else dups ++ [p]) rest
    else
      collectDups (seen ++ [p]) dups rest

/-- `checkDuplicateDeviceSelectorPaths(selector)`: `some dups` models the
error naming the duplicate paths, `none` models success. -/
def checkDuplicateDeviceSelectorPaths (selector : DeviceSelector) :
    Option (List String) :=
  let dups := (collectDups [] [] (selector.paths ++ selector.optionalPaths)).2
  if dups.isEmpty then none else some dups

/-- Result of `getValidDevice`: an error, a silent skip (the empty
`BlockDevice` return meaning the device is already in the volume group), or
a validated device. -/
inductive GVDResult where
  | err
  | skip
  | dev (d : BlockDevice)

/-- `getValidDevice(devicePath, blockDevices, vgs, volumeGroup)`: resolve the
symlink, silently skip a disk already claimed by the target volume group,
fail when the disk is missing from the catalog, otherwise return the device
stamped with the selector path. -/
def getValidDevice (resolve : String → Option String) (devicePath : String)
    (blockDevices : List BlockDevice) (vgs : List VolumeGroup)
    (vgName : String) : GVDResult :=
  match resolve devicePath with
  | none => .err
  | some diskName =>
    if isDeviceAlreadyPartOfVG vgs diskName vgName then .skip
    else
      match hasExactDisk blockDevices diskName with
      | none => .err
      | some d => .dev (d.setDevicePath devicePath)

/-- Steps recorded by the device-selection trace: one entry per path handed
to symlink resolution / catalog lookup. -/
inductive FOp where
  | resolveAttempt (path : String)
deriving DecidableEq, Repr

/-- Failures of `filterMatchingDevices`. -/
inductive FErr where
  | duplicates (paths : List String)
  | requiredInvalid (path : String)
  | atLeastOneRequired
deriving DecidableEq, Repr

/-- The required-path loop of `filterMatchingDevices`: an invalid required
path aborts, a skip marks `devicesAlreadyInVG`, a device is appended. -/
def filterRequired (resolve : String → Option String)
    (blockDevices : List BlockDevice) (vgs : List VolumeGroup)
    (vgName : String) :
    List String → List BlockDevice → Bool →
    List FOp × Except FErr (List BlockDevice × Bool)
  | [], filtered, already => ([], .ok (filtered, already))
  | p :: rest, filtered, already =>
    match getValidDevice resolve p blockDevices vgs vgName with
    | .err => ([.resolveAttempt p], .error (.requiredInvalid p))
    | .skip =>
      let next := filterRequired resolve blockDevices vgs vgName rest filtered true
      (.resolveAttempt p :: next.1, next.2)
    | .dev d =>
      let next :=
        filterRequired resolve blockDevices vgs vgName rest (filtered ++ [d]) already
      (.resolveAttempt p :: next.1, next.2)

/-- The optional-path loop of `filterMatchingDevices`: an invalid optional
path is only skipped. -/
def filterOptional (resolve : String → Option String)
    (blockDevices : List BlockDevice) (vgs : List VolumeGroup)
    (vgName : String) :
    List String → List BlockDevice → Bool →
    List FOp × List BlockDevice × Bool
  | [], filtered, already => ([], filtered, already)
  | p :: rest, filtered, already =>
    match getValidDevice resolve p blockDevices vgs vgName with
    | .err =>
      let next := filterOptional resolve blockDevices vgs vgName rest filtered already
      (.resolveAttempt p :: next.1, next.2)
    | .skip =>
      let next := filterOptional resolve blockDevices vgs vgName rest filtered true
      (.resolveAttempt p :: next.1, next.2)
    | .dev d =>
      let next :=
        filterOptional resolve blockDevices vgs vgName rest (filtered ++ [d]) already
      (.resolveAttempt p :: next.1, next.2)

/-- `filterMatchingDevices(blockDevices, vgs, volumeGroup)`: with no selector
every device passes through; otherwise validate for duplicates, run the
required loop, then the optional loop, and enforce the at-least-one-device
rule when optional paths were specified. -/
def filterMatchingDevices (resolve : String → Option String)
    (blockDevices : List BlockDevice) (vgs : List VolumeGroup)
    (vgName : String) (selector : Option DeviceSelector) :
    List FOp × Except FErr (List BlockDevice) :=
  match selector with
  | none => ([], .ok blockDevices)
  | some sel =>
    match checkDuplicateDeviceSelectorPaths sel with
    | some dups => ([], .error (.duplicates dups))
    | none =>
      let req := filterRequired resolve blockDevices vgs vgName sel.paths [] false
      match req.2 with
      | .error e => (req.1, .error e)
      | .ok (filtered, already) =>
        if 0 < sel.optionalPaths.length then
          let opt := filterOptional resolve blockDevices vgs vgName
            sel.optionalPaths filtered already
          if opt.2.1.isEmpty && !opt.2.2 then
            (req.1 ++ opt.1, .error .atLeastOneRequired)
          else
            (req.1 ++ opt.1, .ok opt.2.1)
        else
          (req.1, .ok filtered)

/-- Membership in the duplicate set accumulated by `collectDups`: a path is
collected iff it was already collected, or it occurs in the remaining input
and is either already known or repeated in the remaining input. -/
theorem mem_collectDups_snd (q : String) (l : List String) : ∀ s d : List String,
    q ∈ (collectDups s d l).2 ↔ q ∈ d ∨ (q ∈ l ∧ (q ∈ s ∨ 2 ≤ l.count q)) := by
  induction l with
  | nil => intro s d; simp [collectDups]
  | cons p rest ih =>
    intro s d
    simp only [collectDups]
    by_cases hp : p ∈ s
    · rw [if_pos hp, ih]
      by_cases hqp : q = p
      · subst hqp
        constructor
        · intro _
          exact Or.inr ⟨List.mem_cons_self _ _, Or.inl hp⟩
        · intro _
          left
          by_cases hqd : q ∈ d
          · rw [if_pos hqd]; exact hqd
          · rw [if_neg hqd]; simp
      · have hd : q ∈ (if p ∈ d then d else d ++ [p]) ↔ q ∈ d := by
          split
          · exact Iff.rfl
          · simp [hqp]
        have hcount : (p :: rest).count q = rest.count q :=
          List.count_cons_of_ne hqp rest
        rw [hd, hcount]
        simp [List.mem_cons, hqp]
    · rw [if_neg hp, ih]
      by_cases hqp : q = p
      · subst hqp
        have hcount : (q :: rest).count q = rest.count q + 1 :=
          List.count_cons_self q rest
        constructor
        · intro h
          rcases h with h | ⟨hmem, _⟩
          · exact Or.inl h
          · refine Or.inr ⟨List.mem_cons_self _ _, Or.inr ?_⟩
            rw [hcount]
            have : 0 < rest.count q := List.count_pos_iff.mpr hmem
            omega
        · intro h
          rcases h with h | ⟨_, h⟩
          · exact Or.inl h
          · rcases h with h | h
            · exact absurd h hp
            · rw [hcount] at h
              have : q ∈ rest := List.count_pos_iff.mp (by omega)
              exact Or.inr ⟨this, Or.inl (by simp)⟩
      · have hcount : (p :: rest).count q = rest.count q :=
          List.count_cons_of_ne hqp rest
        rw [hcount]
        simp only [List.mem_cons, hqp, false_or, List.mem_append,
          List.mem_singleton, or_false]
        tauto
/-- **C6.** For every device selector in which some path occurs more than
once across the required and optional path lists combined, device selection
fails with a validation error naming exactly the duplicated paths, and the
failure is raised before any path resolution or device lookup (the trace of
resolution attempts is empty). -/
theorem filterMatchingDevices_duplicates (resolve : String → Option String)
    (blockDevices : List BlockDevice) (vgs : List VolumeGroup)
    (vgName : String) (sel : DeviceSelector)
    (hdup : ∃ p, 2 ≤ (sel.paths ++ sel.optionalPaths).count p) :
    ∃ dups,
      filterMatchingDevices resolve blockDevices vgs vgName (some sel) =
        ([], .error (.duplicates dups)) ∧
      ∀ q, q ∈ dups ↔ 2 ≤ (sel.paths ++ sel.optionalPaths).count q := by
  obtain ⟨p, hp⟩ := hdup
  have hchar : ∀ q, q ∈ (collectDups [] [] (sel.paths ++ sel.optionalPaths)).2 ↔
      2 ≤ (sel.paths ++ sel.optionalPaths).count q := by
    intro q
    rw [mem_collectDups_snd]
    constructor
    · intro h
      rcases h with h | ⟨_, h | h⟩ <;> first | exact h | simp_all
    · intro h
      have hmem : q ∈ sel.paths ++ sel.optionalPaths :=
        List.count_pos_iff.mp (by omega)
      exact Or.inr ⟨hmem, Or.inr h⟩
  have hne : ¬ (collectDups [] [] (sel.paths ++ sel.optionalPaths)).2.isEmpty := by
    rw [List.isEmpty_iff]
    intro h
    have := (hchar p).mpr hp
    rw [h] at this
    simp at this
  refine ⟨(collectDups [] [] (sel.paths ++ sel.optionalPaths)).2, ?_, hchar⟩
  simp only [filterMatchingDevices, checkDuplicateDeviceSelectorPaths]
  rw [if_neg (by simpa using hne)]
/-- Witness for C6 at the concrete selector
`requiredPaths = [/dev/sdb, /dev/sdb]`: selection fails naming the
duplicate, before any resolution. -/
theorem filterMatchingDevices_duplicates_witness :
    ∃ dups,
      filterMatchingDevices (fun _ => none) [] [] "vg1"
          (some ⟨["/dev/sdb", "/dev/sdb"], [], none⟩) =
        ([], .error (.duplicates dups)) ∧
      ∀ q, q ∈ dups ↔
        2 ≤ ((["/dev/sdb", "/dev/sdb"] : List String) ++ []).count q :=
  filterMatchingDevices_duplicates (fun _ => none) [] [] "vg1"
    ⟨["/dev/sdb", "/dev/sdb"], [], none⟩ ⟨"/dev/sdb", by decide⟩

/-- A device returned by `getValidDevice` is stamped with the selector path
it was validated for. -/
theorem getValidDevice_dev_devicePath (resolve : String → Option String)
    (p : String) (blockDevices : List BlockDevice) (vgs : List VolumeGroup)
    (vgName : String) (d : BlockDevice)
    (h : getValidDevice resolve p blockDevices vgs vgName = .dev d) :
    d.devicePath = p := by
  cases hr : resolve p with
  | none => simp [getValidDevice, hr] at h
  | some n =>
    simp only [getValidDevice, hr] at h
    by_cases hin : isDeviceAlreadyPartOfVG vgs n vgName
    · rw [if_pos hin] at h; exact absurd h (by simp)
    · rw [if_neg hin] at h
      cases hd : hasExactDisk blockDevices n with
      | none => rw [hd] at h; exact absurd h (by simp)
      | some d₀ =>
        rw [hd] at h
        simp only [GVDResult.dev.injEq] at h
        subst h
        cases d₀ with
        | mk k q cs => rfl

/-- A path resolving to a disk that is already a physical volume of the
target volume group is classified as a silent skip by `getValidDevice`. -/
theorem getValidDevice_skip_of_claimed (resolve : String → Option String)
    (p : String) (blockDevices : List BlockDevice) (vgs : List VolumeGroup)
    (vgName : String) (n : String) (hr : resolve p = some n)
    (hin : isDeviceAlreadyPartOfVG vgs n vgName = true) :
    getValidDevice resolve p blockDevices vgs vgName = .skip := by
  simp only [getValidDevice, hr]
  rw [if_pos hin]

/-- When every required path is a silent skip, the required loop returns the
accumulator unchanged and only flips the already-in-VG flag. -/
theorem filterRequired_all_skip (resolve : String → Option String)
    (blockDevices : List BlockDevice) (vgs : List VolumeGroup)
    (vgName : String) :
    ∀ (paths : List String) (f : List BlockDevice) (a : Bool),
      (∀ p ∈ paths,
        getValidDevice resolve p blockDevices vgs vgName = .skip) →
      filterRequired resolve blockDevices vgs vgName paths f a =
        (paths.map FOp.resolveAttempt, .ok (f, a || !paths.isEmpty)) := by
  intro paths
  induction paths with
  | nil => intro f a _; simp [filterRequired]
  | cons p rest ih =>
    intro f a hall
    have hp := hall p (List.mem_cons_self _ _)
    simp only [filterRequired, hp]
    rw [ih f true (fun q hq => hall q (List.mem_cons_of_mem _ hq))]
    simp

/-- When every optional path is a silent skip, the optional loop returns the
accumulator unchanged and only flips the already-in-VG flag. -/
theorem filterOptional_all_skip (resolve : String → Option String)
    (blockDevices : List BlockDevice) (vgs : List VolumeGroup)
    (vgName : String) :
    ∀ (paths : List String) (f : List BlockDevice) (a : Bool),
      (∀ p ∈ paths,
        getValidDevice resolve p blockDevices vgs vgName = .skip) →
      filterOptional resolve blockDevices vgs vgName paths f a =
        (paths.map FOp.resolveAttempt, f, a || !paths.isEmpty) := by
  intro paths
  induction paths with
  | nil => intro f a _; simp [filterOptional]
  | cons p rest ih =>
    intro f a hall
    have hp := hall p (List.mem_cons_self _ _)
    simp only [filterOptional, hp]
    rw [ih f true (fun q hq => hall q (List.mem_cons_of_mem _ hq))]
    simp

/-- When every optional path fails validation, the optional loop leaves both
the accumulator and the already-in-VG flag unchanged. -/
theorem filterOptional_all_err (resolve : String → Option String)
    (blockDevices : List BlockDevice) (vgs : List VolumeGroup)
    (vgName : String) :
    ∀ (paths : List String) (f : List BlockDevice) (a : Bool),
      (∀ p ∈ paths,
        getValidDevice resolve p blockDevices vgs vgName = .err) →
      filterOptional resolve blockDevices vgs vgName paths f a =
        (paths.map FOp.resolveAttempt, f, a) := by
  intro paths
  induction paths with
  | nil => intro f a _; simp [filterOptional]
  | cons p rest ih =>
    intro f a hall
    have hp := hall p (List.mem_cons_self _ _)
    simp only [filterOptional, hp]
    rw [ih f a (fun q hq => hall q (List.mem_cons_of_mem _ hq))]
    simp

/-- Every device returned by the required loop either was in the accumulator
or was produced by `getValidDevice` for one of the required paths. -/
theorem filterRequired_ok_mem (resolve : String → Option String)
    (blockDevices : List BlockDevice) (vgs : List VolumeGroup)
    (vgName : String) :
    ∀ (paths : List String) (f : List BlockDevice) (a : Bool)
      (l : List BlockDevice) (a' : Bool),
      (filterRequired resolve blockDevices vgs vgName paths f a).2 =
        .ok (l, a') →
      ∀ d ∈ l, d ∈ f ∨ ∃ p ∈ paths,
        getValidDevice resolve p blockDevices vgs vgName = .dev d := by
  intro paths
  induction paths with
  | nil =>
    intro f a l a' h d hd
    simp only [filterRequired, Except.ok.injEq, Prod.mk.injEq] at h
    exact Or.inl (h.1 ▸ hd)
  | cons p rest ih =>
    intro f a l a' h d hd
    cases hg : getValidDevice resolve p blockDevices vgs vgName with
    | err => simp [filterRequired, hg] at h
    | skip =>
      simp only [filterRequired, hg] at h
      rcases ih f true l a' h d hd with hf | ⟨q, hq, hdev⟩
      · exact Or.inl hf
      · exact Or.inr ⟨q, List.mem_cons_of_mem _ hq, hdev⟩
    | dev d₀ =>
      simp only [filterRequired, hg] at h
      rcases ih (f ++ [d₀]) a l a' h d hd with hf | ⟨q, hq, hdev⟩
      · rcases List.mem_append.mp hf with hf | hf
        · exact Or.inl hf
        · have : d = d₀ := by simpa using hf
          subst this
          exact Or.inr ⟨p, List.mem_cons_self _ _, hg⟩
      · exact Or.inr ⟨q, List.mem_cons_of_mem _ hq, hdev⟩

/-- Every device returned by the optional loop either was in the accumulator
or was produced by `getValidDevice` for one of the optional paths. -/
theorem filterOptional_mem (resolve : String → Option String)
    (blockDevices : List BlockDevice) (vgs : List VolumeGroup)
    (vgName : String) :
    ∀ (paths : List String) (f : List BlockDevice) (a : Bool),
      ∀ d ∈ (filterOptional resolve blockDevices vgs vgName paths f a).2.1,
      d ∈ f ∨ ∃ p ∈ paths,
        getValidDevice resolve p blockDevices vgs vgName = .dev d := by
  intro paths
  induction paths with
  | nil => intro f a d hd; exact Or.inl hd
  | cons p rest ih =>
    intro f a d hd
    cases hg : getValidDevice resolve p blockDevices vgs vgName with
    | err =>
      simp only [filterOptional, hg] at hd
      rcases ih f a d hd with hf | ⟨q, hq, hdev⟩
      · exact Or.inl hf
      · exact Or.inr ⟨q, List.mem_cons_of_mem _ hq, hdev⟩
    | skip =>
      simp only [filterOptional, hg] at hd
      rcases ih f true d hd with hf | ⟨q, hq, hdev⟩
      · exact Or.inl hf
      · exact Or.inr ⟨q, List.mem_cons_of_mem _ hq, hdev⟩
    | dev d₀ =>
      simp only [filterOptional, hg] at hd
      rcases ih (f ++ [d₀]) a d hd with hf | ⟨q, hq, hdev⟩
      · rcases List.mem_append.mp hf with hf | hf
        · exact Or.inl hf
        · have : d = d₀ := by simpa using hf
          subst this
          exact Or.inr ⟨p, List.mem_cons_self _ _, hg⟩
      · exact Or.inr ⟨q, List.mem_cons_of_mem _ hq, hdev⟩

/-- A failure of the required loop is always a required-path validation
failure. -/
theorem filterRequired_error (resolve : String → Option String)
    (blockDevices : List BlockDevice) (vgs : List VolumeGroup)
    (vgName : String) :
    ∀ (paths : List String) (f : List BlockDevice) (a : Bool) (e : FErr),
      (filterRequired resolve blockDevices vgs vgName paths f a).2 =
        .error e →
      ∃ p, e = .requiredInvalid p := by
  intro paths
  induction paths with
  | nil => intro f a e h; simp [filterRequired] at h
  | cons p rest ih =>
    intro f a e h
    cases hg : getValidDevice resolve p blockDevices vgs vgName with
    | err =>
      simp only [filterRequired, hg, Except.error.injEq] at h
      exact ⟨p, h.symm⟩
    | skip =>
      simp only [filterRequired, hg] at h
      exact ih f true e h
    | dev d₀ =>
      simp only [filterRequired, hg] at h
      exact ih (f ++ [d₀]) a e h

/-- If the required loop succeeds with an empty device list and a clear
already-in-VG flag, the path list and the accumulator were empty and the
flag was clear on entry. -/
theorem filterRequired_ok_empty (resolve : String → Option String)
    (blockDevices : List BlockDevice) (vgs : List VolumeGroup)
    (vgName : String) :
    ∀ (paths : List String) (f : List BlockDevice) (a : Bool),
      (filterRequired resolve blockDevices vgs vgName paths f a).2 =
        .ok ([], false) →
      paths = [] ∧ f = [] ∧ a = false := by
  intro paths
  induction paths with
  | nil =>
    intro f a h
    simp only [filterRequired, Except.ok.injEq, Prod.mk.injEq] at h
    exact ⟨rfl, h.1, h.2⟩
  | cons p rest ih =>
    intro f a h
    cases hg : getValidDevice resolve p blockDevices vgs vgName with
    | err => simp [filterRequired, hg] at h
    | skip =>
      simp only [filterRequired, hg] at h
      exact absurd (ih f true h).2.2 (by simp)
    | dev d₀ =>
      simp only [filterRequired, hg] at h
      have := (ih (f ++ [d₀]) a h).2.1
      simp at this

/-- If the optional loop ends with an empty device list and a clear
already-in-VG flag, it started empty and clear and every optional path
failed validation. -/
theorem filterOptional_empty (resolve : String → Option String)
    (blockDevices : List BlockDevice) (vgs : List VolumeGroup)
    (vgName : String) :
    ∀ (paths : List String) (f : List BlockDevice) (a : Bool),
      (filterOptional resolve blockDevices vgs vgName paths f a).2.1 = [] →
      (filterOptional resolve blockDevices vgs vgName paths f a).2.2 = false →
      f = [] ∧ a = false ∧ ∀ p ∈ paths,
        getValidDevice resolve p blockDevices vgs vgName = .err := by
  intro paths
  induction paths with
  | nil =>
    intro f a h1 h2
    exact ⟨h1, h2, by simp⟩
  | cons p rest ih =>
    intro f a h1 h2
    cases hg : getValidDevice resolve p blockDevices vgs vgName with
    | err =>
      simp only [filterOptional, hg] at h1 h2
      obtain ⟨hf, ha, hrest⟩ := ih f a h1 h2
      refine ⟨hf, ha, ?_⟩
      intro q hq
      rcases List.mem_cons.mp hq with hq | hq
      · exact hq ▸ hg
      · exact hrest q hq
    | skip =>
      simp only [filterOptional, hg] at h1 h2
      exact absurd (ih f true h1 h2).2.1 (by simp)
    | dev d₀ =>
      simp only [filterOptional, hg] at h1 h2
      have := (ih (f ++ [d₀]) a h1 h2).1
      simp at this

/-- **C7.** A required or optional selector path whose resolved device is
already a physical volume of the target volume group is skipped without
error and never appears in the returned device list; in particular, when
every selector path resolves to a device already claimed by the target
group, selection succeeds with an empty device list (idempotent re-run
after a successful creation). -/
theorem filterMatchingDevices_skips_claimed (resolve : String → Option String)
    (blockDevices : List BlockDevice) (vgs : List VolumeGroup)
    (vgName : String) (sel : DeviceSelector) (p : String)
    (hp : p ∈ sel.paths ++ sel.optionalPaths)
    (hclaimed : ∃ n, resolve p = some n ∧
      isDeviceAlreadyPartOfVG vgs n vgName = true) :
    (∀ tr l,
      filterMatchingDevices resolve blockDevices vgs vgName (some sel) =
        (tr, .ok l) →
      ∀ d ∈ l, d.devicePath ≠ p) ∧
    ((∀ q ∈ sel.paths ++ sel.optionalPaths, ∃ n, resolve q = some n ∧
        isDeviceAlreadyPartOfVG vgs n vgName = true) →
      checkDuplicateDeviceSelectorPaths sel = none →
      filterMatchingDevices resolve blockDevices vgs vgName (some sel) =
        ((sel.paths ++ sel.optionalPaths).map FOp.resolveAttempt, .ok [])) := by
  obtain ⟨n, hrn, hin⟩ := hclaimed
  have hskip : getValidDevice resolve p blockDevices vgs vgName = .skip :=
    getValidDevice_skip_of_claimed resolve p blockDevices vgs vgName n hrn hin
  constructor
  · intro tr l h d hd
    intro hpath
    have hdev : ∃ q ∈ sel.paths ++ sel.optionalPaths,
        getValidDevice resolve q blockDevices vgs vgName = .dev d := by
      cases hdup : checkDuplicateDeviceSelectorPaths sel with
      | some dups => simp [filterMatchingDevices, hdup] at h
      | none =>
        cases hreq : (filterRequired resolve blockDevices vgs vgName
            sel.paths [] false).2 with
        | error e =>
          simp only [filterMatchingDevices, hdup, hreq] at h
          simp at h
        | ok fa =>
          obtain ⟨filtered, already⟩ := fa
          simp only [filterMatchingDevices, hdup, hreq] at h
          by_cases hopt : 0 < sel.optionalPaths.length
          · rw [if_pos hopt] at h
            by_cases hempty :
                ((filterOptional resolve blockDevices vgs vgName
                  sel.optionalPaths filtered already).2.1.isEmpty &&
                !(filterOptional resolve blockDevices vgs vgName
                  sel.optionalPaths filtered already).2.2) = true
            · rw [if_pos hempty] at h; simp at h
            · rw [if_neg hempty] at h
              have hl : l = (filterOptional resolve blockDevices vgs vgName
                  sel.optionalPaths filtered already).2.1 := by
                have := congrArg Prod.snd h
                simp at this
                exact this.symm
              subst hl
              rcases filterOptional_mem resolve blockDevices vgs vgName
                  sel.optionalPaths filtered already d hd with hf | ⟨q, hq, hdev⟩
              · rcases filterRequired_ok_mem resolve blockDevices vgs vgName
                    sel.paths [] false filtered already hreq d hf with h0 | ⟨q, hq, hdev⟩
                · simp at h0
                · exact ⟨q, List.mem_append.mpr (Or.inl hq), hdev⟩
              · exact ⟨q, List.mem_append.mpr (Or.inr hq), hdev⟩
          · rw [if_neg hopt] at h
            have hl : l = filtered := by
              have := congrArg Prod.snd h
              simp at this
              exact this.symm
            rw [hl] at hd
            rcases filterRequired_ok_mem resolve blockDevices vgs vgName
                sel.paths [] false filtered already hreq d hd with h0 | ⟨q, hq, hdev⟩
            · simp at h0
            · exact ⟨q, List.mem_append.mpr (Or.inl hq), hdev⟩
    obtain ⟨q, _, hdev⟩ := hdev
    have : d.devicePath = q :=
      getValidDevice_dev_devicePath resolve q blockDevices vgs vgName d hdev
    rw [this] at hpath
    subst hpath
    rw [hdev] at hskip
    exact absurd hskip (by simp)
  · intro hall hdup
    have hallskip : ∀ q ∈ sel.paths ++ sel.optionalPaths,
        getValidDevice resolve q blockDevices vgs vgName = .skip := by
      intro q hq
      obtain ⟨m, hrm, him⟩ := hall q hq
      exact getValidDevice_skip_of_claimed resolve q blockDevices vgs vgName m hrm him
    have hreqskip : ∀ q ∈ sel.paths,
        getValidDevice resolve q blockDevices vgs vgName = .skip :=
      fun q hq => hallskip q (List.mem_append.mpr (Or.inl hq))
    have hoptskip : ∀ q ∈ sel.optionalPaths,
        getValidDevice resolve q blockDevices vgs vgName = .skip :=
      fun q hq => hallskip q (List.mem_append.mpr (Or.inr hq))
    simp only [filterMatchingDevices, hdup]
    rw [filterRequired_all_skip resolve blockDevices vgs vgName sel.paths [] false
      hreqskip]
    cases hop : sel.optionalPaths with
    | nil =>
      simp [hop]
    | cons o orest =>
      rw [hop] at hoptskip
      simp only [List.length_cons]
      rw [if_pos (Nat.succ_pos _)]
      rw [filterOptional_all_skip resolve blockDevices vgs vgName (o :: orest) []
        (false || !sel.paths.isEmpty) hoptskip]
      simp [hop]

/-- Witness for C7 at a concrete input: the single required path resolves to
a disk that is already a physical volume of the target group, so re-running
selection succeeds with no devices. -/
theorem filterMatchingDevices_skips_claimed_witness :
    filterMatchingDevices (fun q => if q = "/dev/sdb" then some "sdb" else none)
        [] [⟨"vg1", ["sdb"], "100g"⟩] "vg1" (some ⟨["/dev/sdb"], [], none⟩) =
      (((["/dev/sdb"] : List String) ++ []).map FOp.resolveAttempt, .ok []) :=
  (filterMatchingDevices_skips_claimed
    (fun q => if q = "/dev/sdb" then some "sdb" else none)
    [] [⟨"vg1", ["sdb"], "100g"⟩] "vg1" ⟨["/dev/sdb"], [], none⟩ "/dev/sdb"
    (by decide) ⟨"sdb", by decide, by decide⟩).2
    (by
      intro q hq
      have : q = "/dev/sdb" := by
        simpa using hq
      subst this
      exact ⟨"sdb", by decide, by decide⟩)
    (by decide)

/-- **C8.** Device selection fails with the at-least-one-founding-device
error exactly when the selector passes duplicate validation, its required
path list is empty, its optional path list is non-empty, and every optional
path fails validation (so no device resolved and none was already part of
the target group); in every other situation this particular failure is not
raised. -/
theorem filterMatchingDevices_min_one_device (resolve : String → Option String)
    (blockDevices : List BlockDevice) (vgs : List VolumeGroup)
    (vgName : String) (sel : DeviceSelector) :
    (filterMatchingDevices resolve blockDevices vgs vgName (some sel)).2 =
      .error .atLeastOneRequired ↔
    (checkDuplicateDeviceSelectorPaths sel = none ∧ sel.paths = [] ∧
      sel.optionalPaths ≠ [] ∧ ∀ p ∈ sel.optionalPaths,
        getValidDevice resolve p blockDevices vgs vgName = .err) := by
  constructor
  · intro h
    cases hdup : checkDuplicateDeviceSelectorPaths sel with
    | some dups => simp [filterMatchingDevices, hdup] at h
    | none =>
      cases hreq : (filterRequired resolve blockDevices vgs vgName
          sel.paths [] false).2 with
      | error e =>
        simp only [filterMatchingDevices, hdup, hreq] at h
        simp only [Except.error.injEq] at h
        obtain ⟨q, hq⟩ := filterRequired_error resolve blockDevices vgs vgName
          sel.paths [] false e hreq
        rw [hq] at h
        exact absurd h.symm (by simp)
      | ok fa =>
        obtain ⟨filtered, already⟩ := fa
        simp only [filterMatchingDevices, hdup, hreq] at h
        by_cases hopt : 0 < sel.optionalPaths.length
        · rw [if_pos hopt] at h
          by_cases hempty :
              ((filterOptional resolve blockDevices vgs vgName
                sel.optionalPaths filtered already).2.1.isEmpty &&
              !(filterOptional resolve blockDevices vgs vgName
                sel.optionalPaths filtered already).2.2) = true
          · simp only [Bool.and_eq_true, List.isEmpty_iff,
              Bool.not_eq_true', Bool.not_eq_true] at hempty  -- unpack
            obtain ⟨h1, h2⟩ := hempty
            obtain ⟨hf, ha, hallerr⟩ := filterOptional_empty resolve blockDevices
              vgs vgName sel.optionalPaths filtered already h1 h2
            subst hf
            subst ha
            obtain ⟨hpaths, _, _⟩ := filterRequired_ok_empty resolve blockDevices
              vgs vgName sel.paths [] false hreq
            refine ⟨rfl, hpaths, ?_, hallerr⟩
            intro hnil
            rw [hnil] at hopt
            simp at hopt
          · rw [if_neg hempty] at h
            simp at h
        · rw [if_neg hopt] at h
          simp at h
  · intro ⟨hdup, hpaths, hopt, hallerr⟩
    have hreq : filterRequired resolve blockDevices vgs vgName [] [] false =
        ([], .ok ([], false)) := rfl
    simp only [filterMatchingDevices, hdup, hpaths, hreq]
    rw [if_pos (List.length_pos.mpr hopt)]
    rw [filterOptional_all_err resolve blockDevices vgs vgName
      sel.optionalPaths [] false hallerr]
    simp

/-- Witness for C4 at a concrete input: one device, group absent, so the
create command is chosen with the expected arguments. -/
theorem addDevicesToVG_create_iff_absent_witness :
    ∃ c, (addDevicesToVG [] "vg1" [.mk "sdb" "/dev/sdb" []] (.ok ())).1 = [c] ∧
      c.args = "vg1" :: [BlockDevice.mk "sdb" "/dev/sdb" []].map
        (fun d => if d.devicePath != "" then d.devicePath else d.kname) ∧
      (c.cmd = "/usr/sbin/vgcreate" ↔ ¬ ∃ vg ∈ ([] : List VolumeGroup), vg.name = "vg1") ∧
      (c.cmd = "/usr/sbin/vgextend" ↔ ∃ vg ∈ ([] : List VolumeGroup), vg.name = "vg1") :=
  addDevicesToVG_create_iff_absent [] "vg1" [.mk "sdb" "/dev/sdb" []] (.ok ())
    (List.cons_ne_nil _ _)

/-! ## Thin-pool extension (vgmanager_controller.go, `extendThinPool`)

`extendThinPool` parses the reported thin-pool size and volume-group size by
stripping one trailing unit character and parsing the numeric magnitude
(`strconv.ParseFloat(s[:len(s)-1], 64)`); decimal numerals are modelled
exactly over `ℚ`, and Go's `int(...)` float-to-int conversion (truncation
toward zero) by `goTrunc`. -/

/-- Accumulate a decimal digit string into a natural number. -/
def natOfDigits (cs : List Char) : ℕ :=
  cs.foldl (fun a c => 10 * a + (c.toNat - 48)) 0

/-- Parse an unsigned decimal numeral (digits with an optional fractional
part), the decimal fragment of `strconv.ParseFloat`. -/
def parseUnsigned (cs : List Char) : Option ℚ :=
  let intPart := cs.takeWhile Char.isDigit
  let rest := cs.dropWhile Char.isDigit
  match rest with
  | [] => if intPart.isEmpty then none else some (natOfDigits intPart)
  | c :: frac =>
    if c = '.' then
      if frac.all Char.isDigit && !(intPart.isEmpty && frac.isEmpty) then
        some ((natOfDigits intPart : ℚ) +
          (natOfDigits frac : ℚ) / (10 : ℚ) ^ frac.length)
      else none
    else none

/-- Parse an optionally signed decimal numeral: the subset of
`strconv.ParseFloat` exercised by size strings. -/
def parseGoFloat (s : String) : Option ℚ :=
  match s.data with
  | '-' :: cs => (parseUnsigned cs).map (fun q => -q)
  | '+' :: cs => parseUnsigned cs
  | cs => parseUnsigned cs

/-- `s[:len(s)-1]`: strip the one-character unit suffix (sizes are ASCII, so
byte slicing equals dropping the last character). -/
def stripLastChar (s : String) : String :=
  ⟨s.data.dropLast⟩

/-- Go's `int(x)` conversion on a float: truncation toward zero. -/
def goTrunc (q : ℚ) : ℤ :=
  if 0 ≤ q then ⌊q⌋ else ⌈q⌉

/-- Outcome of `LVM.GetVG(name)`: a distinguished not-found condition, any
other failure, or the volume group record. -/
inductive GetVGResult where
  | err
  | notFound
  | found (vg : VolumeGroup)
deriving DecidableEq, Repr

/-- Host commands issued by `extendThinPool`
(`LVM.ExtendLV(name, vgName, sizePercent)`). -/
inductive TOp where
  | extendLV (name : String) (vgName : String) (sizePercent : ℤ)
deriving DecidableEq, Repr

/-- Failures of `extendThinPool`. -/
inductive TErr where
  | getVGFailed
  | parseLvFailed
  | parseVgFailed
  | extendFailed
deriving DecidableEq, Repr

/-- Environment of `extendThinPool`: outcome of the volume-group lookup and
of the extend command. -/
structure ThinEnv where
  getVG : GetVGResult
  extendResult : Except Unit Unit

/-- Shallow embedding of `extendThinPool(ctx, vgName, lvSize, config)`: a
not-found volume group is a silent no-op; otherwise both sizes are parsed
after stripping the unit suffix, and the extend command is issued only when
the configured size percent exceeds the truncated current fill percent. -/
def extendThinPool (env : ThinEnv) (vgName : String) (lvSize : String)
    (config : ThinPoolConfig) : List TOp × Except TErr Unit :=
  match env.getVG with
  | .err => ([], .error .getVGFailed)
  | .notFound => ([], .ok ())
  | .found vg =>
    match parseGoFloat (stripLastChar lvSize) with
    | none => ([], .error .parseLvFailed)
    | some thinPoolSize =>
      match parseGoFloat (stripLastChar vg.vgSize) with
      | none => ([], .error .parseVgFailed)
      | some vgSize =>
        if config.sizePercent ≤ goTrunc (thinPoolSize / vgSize * 100) then
          ([], .ok ())
        else
          ([.extendLV config.name vgName config.sizePercent],
            match env.extendResult with
            | .ok _ => .ok ()
            | .error _ => .error .extendFailed)

/-- **C3.** For an existing thin pool with parsed pool size `S` and backing
volume-group size `G`, `extendThinPool` issues the extend command iff the
configured size percent strictly exceeds the current fill percent
`(S/G)*100`, and never when it is less than or equal to it; a not-found
backing volume group returns success without issuing any command. -/
theorem extendThinPool_extend_iff (env : ThinEnv) (vgName lvSize : String)
    (config : ThinPoolConfig) :
    (∀ vg S G, env.getVG = .found vg →
      parseGoFloat (stripLastChar lvSize) = some S →
      parseGoFloat (stripLastChar vg.vgSize) = some G →
      0 ≤ S → 0 < G →
      ((extendThinPool env vgName lvSize config).1 =
          [.extendLV config.name vgName config.sizePercent] ↔
        S / G * 100 < (config.sizePercent : ℚ))) ∧
    (env.getVG = .notFound →
      extendThinPool env vgName lvSize config = ([], .ok ())) := by
  constructor
  · intro vg S G hvg hS hG hS0 hG0
    have hx : (0 : ℚ) ≤ S / G * 100 := by positivity
    have htr : goTrunc (S / G * 100) = ⌊S / G * 100⌋ := if_pos hx
    simp only [extendThinPool, hvg, hS, hG, htr]
    by_cases hle : config.sizePercent ≤ ⌊S / G * 100⌋
    · rw [if_pos hle]
      have : (config.sizePercent : ℚ) ≤ S / G * 100 := Int.le_floor.mp hle
      constructor
      · intro h; simp at h
      · intro h; exact absurd this (not_le.mpr h)
    · rw [if_neg hle]
      have : S / G * 100 < (config.sizePercent : ℚ) := by
        have h2 := hle
        rw [Int.le_floor] at h2
        exact lt_of_not_le h2
      constructor
      · intro _; exact this
      · intro _
        cases env.extendResult with
        | ok _ => rfl
        | error _ => rfl
  · intro h
    simp [extendThinPool, h]
/-- Witness for C3 at a concrete input: a thin pool of size 40g in a 100g
group with target 80 percent is extended; the extend command carries the
pool name, the group name and the target percent. -/
theorem extendThinPool_extend_iff_witness :
    (extendThinPool ⟨.found ⟨"vg1", [], "100g"⟩, .ok ()⟩ "vg1" "40g"
        ⟨"thin-pool-1", 80, 10⟩).1 =
      [.extendLV "thin-pool-1" "vg1" 80] :=
  ((extendThinPool_extend_iff ⟨.found ⟨"vg1", [], "100g"⟩, .ok ()⟩ "vg1" "40g"
      ⟨"thin-pool-1", 80, 10⟩).1 ⟨"vg1", [], "100g"⟩ 40 100 rfl (by decide)
      (by decide) (by decide) (by decide)).mpr (by norm_num)

/-! ## Device wiping (wipe_devices.go)

`wipeDevicesIfNecessary` erases signatures on each configured,
not-already-claimed path and removes stale device-mapper references on the
wiped device's children.  `Wipefs.Wipe` and `Dmsetup.Remove` outcomes and
the already-part-of-VG test on paths (whose node-status based definition
lives outside these sources) are environment functions; every wipe and
device-mapper removal attempt is recorded in the trace together with the
observed removal outcome. -/

/-- Outcome of `Dmsetup.Remove`: success, the distinguished
`ErrReferenceNotFound`, or any other failure. -/
inductive DmRes where
  | ok
  | notFound
  | otherErr
deriving DecidableEq, Repr

/-- Steps recorded during a wipe pass. -/
inductive WOp where
  | wipe (kname : String)
  | dmRemove (kname : String) (result : DmRes)
deriving DecidableEq, Repr

/-- Environment of the wipe pass. -/
structure WipeEnv where
  wipeResult : String → Except Unit Unit
  dmResult : String → DmRes
  alreadyPartOfVG : String → Bool

/-- `removeMapperReference` applied to each device of a list, innermost
children first (`removeMapperReference` recurses into children before
removing the device's own reference); every removal outcome — success,
reference-not-found, or any other error — is only logged, so the function
contributes trace entries but no failure. -/
def removeMapperReferenceList (env : WipeEnv) : List BlockDevice → List WOp
  | [] => []
  | .mk k _ cs :: rest =>
    removeMapperReferenceList env cs ++ [.dmRemove k (env.dmResult k)] ++
      removeMapperReferenceList env rest

/-- Shallow embedding of `wipeDevice(ctx, deviceName, blockDevices)`: wipe
the matching device (a wipefs failure aborts), then remove device-mapper
references of its children; recurse into children of non-matching devices. -/
def wipeDevice (env : WipeEnv) (deviceName : String) :
    List BlockDevice → List WOp × Except Unit Bool
  | [] => ([], .ok false)
  | .mk k p cs :: rest =>
    if k == deviceName then
      match env.wipeResult k with
      | .error _ => ([.wipe k], .error ())
      | .ok _ =>
        let mapper := removeMapperReferenceList env cs
        let next := wipeDevice env deviceName rest
        (.wipe k :: (mapper ++ next.1),
          match next.2 with
          | .error e => .error e
          | .ok _ => .ok true)
    else
      if (BlockDevice.mk k p cs).hasChildren then
        let child := wipeDevice env deviceName cs
        match child.2 with
        | .error e => (child.1, .error e)
        | .ok childWiped =>
          let next := wipeDevice env deviceName rest
          (child.1 ++ next.1,
            match next.2 with
            | .error e => .error e
            | .ok w => .ok (childWiped || w))
      else
        wipeDevice env deviceName rest

/-- The loop of `wipeDevicesIfNecessary` over the required paths: a wipe
failure on a not-already-claimed required path aborts with the error. -/
def wipeRequiredLoop (env : WipeEnv) (devices : List BlockDevice) :
    List String → List WOp × Except Unit Bool
  | [] => ([], .ok false)
  | p :: rest =>
    if env.alreadyPartOfVG p then wipeRequiredLoop env devices rest
    else
      let w := wipeDevice env p devices
      match w.2 with
      | .error e => (w.1, .error e)
      | .ok dw =>
        let next := wipeRequiredLoop env devices rest
        (w.1 ++ next.1,
          match next.2 with
          | .error e => .error e
          | .ok wr => .ok (dw || wr))

/-- The loop of `wipeDevicesIfNecessary` over the optional paths: a wipe
failure is only logged (and the returned wiped flag of a failed wipe is
false), the loop never fails. -/
def wipeOptionalLoop (env : WipeEnv) (devices : List BlockDevice) :
    List String → List WOp × Bool
  | [] => ([], false)
  | p :: rest =>
    if env.alreadyPartOfVG p then wipeOptionalLoop env devices rest
    else
      let w := wipeDevice env p devices
      let dw := match w.2 with
        | .error _ => false
        | .ok b => b
      let next := wipeOptionalLoop env devices rest
      (w.1 ++ next.1, dw || next.2)

/-- Shallow embedding of
`wipeDevicesIfNecessary(ctx, volumeGroup, nodeStatus, blockDevices)`:
no-op unless force-wipe is enabled, then the required loop (fallible)
followed by the optional loop (infallible). -/
def wipeDevicesIfNecessary (env : WipeEnv) (sel : Option DeviceSelector)
    (devices : List BlockDevice) : List WOp × Except Unit Bool :=
  match sel with
  | none => ([], .ok false)
  | some s =>
    match s.forceWipeDevicesAndDestroyAllData with
    | none => ([], .ok false)
    | some false => ([], .ok false)
    | some true =>
      let req := wipeRequiredLoop env devices s.paths
      match req.2 with
      | .error e => (req.1, .error e)
      | .ok wiped1 =>
        let opt := wipeOptionalLoop env devices s.optionalPaths
        (req.1 ++ opt.1, .ok (wiped1 || opt.2))

/-- The result of `wipeDevice` does not depend on the device-mapper removal
outcomes: those are only logged (recorded in the trace). -/
theorem wipeDevice_result_dm (env : WipeEnv) (dm' : String → DmRes)
    (deviceName : String) :
    ∀ devices, (wipeDevice { env with dmResult := dm' } deviceName devices).2 =
      (wipeDevice env deviceName devices).2
  | [] => by simp [wipeDevice]
  | .mk k p cs :: rest => by
    simp only [wipeDevice]
    cases hk : k == deviceName with
    | true =>
      simp only [if_true]
      cases hw : env.wipeResult k with
      | error e => simp [hw]
      | ok u =>
        simp only [hw]
        rw [wipeDevice_result_dm env dm' deviceName rest]
    | false =>
      simp only [Bool.false_eq_true, if_false]
      by_cases hc : (BlockDevice.mk k p cs).hasChildren
      · simp only [hc, if_true]
        rw [wipeDevice_result_dm env dm' deviceName cs]
        cases hcres : (wipeDevice env deviceName cs).2 with
        | error e => simp [hcres]
        | ok b =>
          simp only [hcres]
          rw [wipeDevice_result_dm env dm' deviceName rest]
      · simp only [hc, if_false]
        exact wipeDevice_result_dm env dm' deviceName rest

/-- The result of the required-path wipe loop does not depend on the
device-mapper removal outcomes. -/
theorem wipeRequiredLoop_result_dm (env : WipeEnv) (dm' : String → DmRes)
    (devices : List BlockDevice) :
    ∀ paths,
      (wipeRequiredLoop { env with dmResult := dm' } devices paths).2 =
        (wipeRequiredLoop env devices paths).2 := by
  intro paths
  induction paths with
  | nil => rfl
  | cons p rest ih =>
    simp only [wipeRequiredLoop]
    by_cases ha : env.alreadyPartOfVG p
    · simp only [ha, if_true]
      exact ih
    · simp only [ha, if_false]
      rw [wipeDevice_result_dm env dm' p devices]
      cases hw : (wipeDevice env p devices).2 with
      | error e => simp [hw]
      | ok dw =>
        simp only [hw]
        rw [ih]
        rfl

/-- The wiped flag of the optional-path wipe loop does not depend on the
device-mapper removal outcomes. -/
theorem wipeOptionalLoop_result_dm (env : WipeEnv) (dm' : String → DmRes)
    (devices : List BlockDevice) :
    ∀ paths,
      (wipeOptionalLoop { env with dmResult := dm' } devices paths).2 =
        (wipeOptionalLoop env devices paths).2 := by
  intro paths
  induction paths with
  | nil => rfl
  | cons p rest ih =>
    simp only [wipeOptionalLoop]
    by_cases ha : env.alreadyPartOfVG p
    · simp only [ha, if_true]
      exact ih
    · simp only [ha, if_false]
      rw [wipeDevice_result_dm env dm' p devices, ih]
      rfl

/-- The required-path loop fails exactly when some not-already-claimed
required path's wipe fails. -/
theorem wipeRequiredLoop_error_iff (env : WipeEnv) (devices : List BlockDevice) :
    ∀ paths,
      (wipeRequiredLoop env devices paths).2 = .error () ↔
        ∃ p ∈ paths, env.alreadyPartOfVG p = false ∧
          (wipeDevice env p devices).2 = .error () := by
  intro paths
  induction paths with
  | nil => simp [wipeRequiredLoop]
  | cons p rest ih =>
    by_cases ha : env.alreadyPartOfVG p = true
    · have hstep : (wipeRequiredLoop env devices (p :: rest)).2 =
          (wipeRequiredLoop env devices rest).2 := by
        simp [wipeRequiredLoop, ha]
      rw [hstep, ih]
      constructor
      · rintro ⟨q, hq, h1, h2⟩
        exact ⟨q, List.mem_cons_of_mem _ hq, h1, h2⟩
      · rintro ⟨q, hq, h1, h2⟩
        rcases List.mem_cons.mp hq with rfl | hq
        · rw [ha] at h1
          simp at h1
        · exact ⟨q, hq, h1, h2⟩
    · have haf : env.alreadyPartOfVG p = false := by simpa using ha
      cases hw : (wipeDevice env p devices).2 with
      | error e =>
        cases e
        have hstep : (wipeRequiredLoop env devices (p :: rest)).2 =
            .error () := by
          simp [wipeRequiredLoop, haf, hw]
        rw [hstep]
        constructor
        · intro _
          exact ⟨p, List.mem_cons_self _ _, haf, hw⟩
        · intro _; rfl
      | ok dw =>
        cases hr : (wipeRequiredLoop env devices rest).2 with
        | error e =>
          cases e
          have hstep : (wipeRequiredLoop env devices (p :: rest)).2 =
              .error () := by
            simp [wipeRequiredLoop, haf, hw, hr]
          rw [hstep]
          constructor
          · intro _
            obtain ⟨q, hq, h1, h2⟩ := ih.mp hr
            exact ⟨q, List.mem_cons_of_mem _ hq, h1, h2⟩
          · intro _; rfl
        | ok wr =>
          have hstep : (wipeRequiredLoop env devices (p :: rest)).2 =
              .ok (dw || wr) := by
            simp [wipeRequiredLoop, haf, hw, hr]
          rw [hstep]
          constructor
          · intro h; simp at h
          · rintro ⟨q, hq, h1, h2⟩
            rcases List.mem_cons.mp hq with rfl | hq
            · rw [hw] at h2
              simp at h2
            · have := ih.mpr ⟨q, hq, h1, h2⟩
              rw [hr] at this
              simp at this

/-- **C9 counterexample.** A device-mapper removal error
(`DmRes.otherErr`, not reference-not-found) on the child of a wiped
*required* path does not abort the pass: the pass records the failed
removal in its trace and still returns success, contradicting the claim
that such removal errors are fatal for required paths. -/
theorem wipeDevicesIfNecessary_dm_error_not_fatal :
    wipeDevicesIfNecessary
        ⟨fun _ => .ok (), fun k => if k = "dm-1" then .otherErr else .ok,
          fun _ => false⟩
        (some ⟨["/dev/sda"], [], some true⟩)
        [.mk "/dev/sda" "" [.mk "dm-1" "" []]] =
      ([.wipe "/dev/sda", .dmRemove "dm-1" .otherErr], .ok true) := by
  simp [wipeDevicesIfNecessary, wipeRequiredLoop, wipeOptionalLoop, wipeDevice,
    removeMapperReferenceList]

/-- **C9 (amended).** During force-wipe, the pass fails exactly when a
signature-erase (`wipeDevice`) failure occurs on some not-already-claimed
required path — the same failure on an optional path never fails the pass —
and the pass result (including its wiped flag) is entirely independent of
the device-mapper removal outcomes: 'mapping absent' is never a failure,
and every other removal error is also only logged, for required and
optional paths alike. -/
theorem wipeDevicesIfNecessary_failure_iff (env : WipeEnv)
    (s : DeviceSelector) (devices : List BlockDevice)
    (hforce : s.forceWipeDevicesAndDestroyAllData = some true) :
    ((wipeDevicesIfNecessary env (some s) devices).2 = .error () ↔
      ∃ p ∈ s.paths, env.alreadyPartOfVG p = false ∧
        (wipeDevice env p devices).2 = .error ()) ∧
    (∀ dm',
      (wipeDevicesIfNecessary { env with dmResult := dm' } (some s) devices).2 =
        (wipeDevicesIfNecessary env (some s) devices).2) := by
  constructor
  · simp only [wipeDevicesIfNecessary, hforce]
    cases hreq : (wipeRequiredLoop env devices s.paths).2 with
    | error e =>
      cases e
      simp only [hreq]
      rw [← wipeRequiredLoop_error_iff env devices s.paths]
      simp [hreq]
    | ok w1 =>
      simp only [hreq]
      rw [← wipeRequiredLoop_error_iff env devices s.paths]
      simp [hreq]
  · intro dm'
    simp only [wipeDevicesIfNecessary, hforce]
    rw [wipeRequiredLoop_result_dm env dm' devices s.paths]
    cases hreq : (wipeRequiredLoop env devices s.paths).2 with
    | error e => simp [hreq]
    | ok w1 =>
      simp only [hreq]
      rw [wipeOptionalLoop_result_dm env dm' devices s.optionalPaths]

/-- Witness for the amended C9 at a concrete input: a wipefs failure on the
single (not-already-claimed) required path aborts the pass. -/
theorem wipeDevicesIfNecessary_failure_iff_witness :
    (wipeDevicesIfNecessary
        ⟨fun _ => .error (), fun _ => .ok, fun _ => false⟩
        (some ⟨["/dev/sda"], [], some true⟩)
        [.mk "/dev/sda" "" []]).2 = .error () :=
  (wipeDevicesIfNecessary_failure_iff
      ⟨fun _ => .error (), fun _ => .ok, fun _ => false⟩
      ⟨["/dev/sda"], [], some true⟩ [.mk "/dev/sda" "" []] rfl).1.mpr
    ⟨"/dev/sda", List.mem_singleton.mpr rfl, rfl, by simp [wipeDevice]⟩

/-! ## Registry (lvmd config) bookkeeping

The reconcile pass appends a device class for the spec's volume group only
when no entry with that name exists; the delete pass removes the first
entry with that name (the indexed loop with `break`). -/

/-- The device-class append step of `reconcile`: scan for an entry named
after the volume group, and append a freshly built entry only when none is
found (`dc.Type`/thin-pool fields are filled only when a thin pool is
configured). -/
def addDeviceClass (classes : List DeviceClass) (vgName : String)
    (defaultFlag : Bool) (tp : Option ThinPoolConfig) : List DeviceClass :=
  if classes.any (fun dc => dc.name == vgName) then classes
  else
    classes ++ [⟨vgName, vgName, defaultFlag, tp.isSome,
      ⟨(tp.map (fun c => c.name)).getD "",
        (tp.map (fun c => c.overprovisionRatio)).getD 0⟩⟩]

/-- The device-class removal step of `processDelete`: remove the first
entry named after the volume group (the loop breaks after one splice). -/
def removeFirstDeviceClass : List DeviceClass → String → List DeviceClass
  | [], _ => []
  | dc :: rest, n =>
    if dc.name == n then rest else dc :: removeFirstDeviceClass rest n

/-! ## Deletion pass (vgmanager_controller.go, `processDelete`)

The pass is embedded as a pipeline over an environment recording the
outcome of each collaborator call; the trace records every host-mutating
and bookkeeping operation in the order it is issued (an operation that is
attempted and fails is still recorded).  The failed-status writes that
accompany thin-pool/volume-group deletion failures are events on the status
object and are not part of the claimed teardown order, so they are not
traced. -/

/-- Teardown operations, in the order claimed by the spec. -/
inductive DOp where
  | deleteLV (name : String) (vgName : String)
  | deleteVG (name : String)
  | saveConfig (classes : List DeviceClass)
  | deleteConfig
  | removeStatus
  | removeFinalizer
deriving DecidableEq, Repr

/-- Position of a teardown operation in the mandated order (registry update
and registry delete are alternatives of the same step). -/
def DOp.rank : DOp → ℕ
  | .deleteLV _ _ => 0
  | .deleteVG _ => 1
  | .saveConfig _ => 2
  | .deleteConfig => 2
  | .removeStatus => 3
  | .removeFinalizer => 4

/-- Failures of `processDelete`, one per fallible call. -/
inductive DErr where
  | loadFailed
  | getVGFailed
  | lvExistsFailed
  | deleteLVFailed
  | deleteVGFailed
  | saveFailed
  | deleteConfigFailed
  | removeStatusFailed
  | updateFailed
deriving DecidableEq, Repr

/-- The latest teardown step a pass failing with this error can have
issued. -/
def DErr.rank : DErr → ℕ
  | .loadFailed => 0
  | .getVGFailed => 0
  | .lvExistsFailed => 0
  | .deleteLVFailed => 0
  | .deleteVGFailed => 1
  | .saveFailed => 2
  | .deleteConfigFailed => 2
  | .removeStatusFailed => 3
  | .updateFailed => 4

/-- Environment of `processDelete`: the spec fields it reads and the
outcome of each collaborator call. -/
structure DeleteEnv where
  load : Except Unit (Option LvmdConfig)
  getVG : GetVGResult
  thinPoolConfig : Option ThinPoolConfig
  lvExists : Except Unit Bool
  deleteLV : Except Unit Unit
  deleteVG : Except Unit Unit
  save : Except Unit Unit
  deleteCfg : Except Unit Unit
  removeStatus : Except Unit Unit
  finalizerPresent : Bool
  update : Except Unit Unit
  vgName : String

/-- Sequencing of two traced stages: the second runs only when the first
succeeded. -/
def andThenD (a : List DOp × Except DErr Unit)
    (b : Unit → List DOp × Except DErr Unit) : List DOp × Except DErr Unit :=
  match a.2 with
  | .error e => (a.1, .error e)
  | .ok _ => (a.1 ++ (b ()).1, (b ()).2)

/-- Node-status deletion followed by finalizer removal (the tail of
`processDelete`): `removeVolumeGroupStatus`, then `RemoveFinalizer` and the
persisting update when the finalizer was present. -/
def processDeleteStatus (env : DeleteEnv) : List DOp × Except DErr Unit :=
  match env.removeStatus with
  | .error _ => ([.removeStatus], .error .removeStatusFailed)
  | .ok _ =>
    if env.finalizerPresent then
      match env.update with
      | .error _ => ([.removeStatus, .removeFinalizer], .error .updateFailed)
      | .ok _ => ([.removeStatus, .removeFinalizer], .ok ())
    else
      ([.removeStatus], .ok ())

/-- Registry persistence step of `processDelete`: with a loaded config,
save it when device classes remain, delete the file when none remain; with
no config file nothing has to be removed.  Then the status/finalizer tail. -/
def processDeleteFinish (env : DeleteEnv) (cfg : Option LvmdConfig) :
    List DOp × Except DErr Unit :=
  match cfg with
  | none => processDeleteStatus env
  | some c =>
    if 0 < c.deviceClasses.length then
      andThenD
        ([.saveConfig c.deviceClasses],
          match env.save with
          | .error _ => .error .saveFailed
          | .ok _ => .ok ())
        (fun _ => processDeleteStatus env)
    else
      andThenD
        ([.deleteConfig],
          match env.deleteCfg with
          | .error _ => .error .deleteConfigFailed
          | .ok _ => .ok ())
        (fun _ => processDeleteStatus env)

/-- Thin-pool deletion step of `processDelete`: only with a configured thin
pool; a pool whose existence check reports absence is skipped without
error. -/
def processDeleteThinPool (env : DeleteEnv) : List DOp × Except DErr Unit :=
  match env.thinPoolConfig with
  | none => ([], .ok ())
  | some tp =>
    match env.lvExists with
    | .error _ => ([], .error .lvExistsFailed)
    | .ok true =>
      ([.deleteLV tp.name env.vgName],
        match env.deleteLV with
        | .error _ => .error .deleteLVFailed
        | .ok _ => .ok ())
    | .ok false => ([], .ok ())

/-- Host teardown of `processDelete`: a not-found volume group skips both
the thin-pool and the volume-group deletion without error; otherwise the
thin pool is deleted before the volume group. -/
def processDeleteHost (env : DeleteEnv) : List DOp × Except DErr Unit :=
  match env.getVG with
  | .err => ([], .error .getVGFailed)
  | .notFound => ([], .ok ())
  | .found vg =>
    andThenD (processDeleteThinPool env)
      (fun _ =>
        ([.deleteVG vg.name],
          match env.deleteVG with
          | .error _ => .error .deleteVGFailed
          | .ok _ => .ok ()))

/-- Shallow embedding of `processDelete(ctx, volumeGroup)`: load the lvmd
config and splice out the device class in memory, tear down the host state,
persist the registry, delete the node status, remove the finalizer. -/
def processDelete (env : DeleteEnv) : List DOp × Except DErr Unit :=
  match env.load with
  | .error _ => ([], .error .loadFailed)
  | .ok cfgOpt =>
    let cfg := cfgOpt.map (fun c =>
      { c with deviceClasses :=
          removeFirstDeviceClass c.deviceClasses env.vgName })
    andThenD (processDeleteHost env) (fun _ => processDeleteFinish env cfg)

/-- Ranks of a concatenated trace are strictly increasing when both halves
are and every operation of the first half ranks below every operation of
the second. -/
theorem pairwise_rank_append {l₁ l₂ : List DOp}
    (h₁ : (l₁.map DOp.rank).Pairwise (· < ·))
    (h₂ : (l₂.map DOp.rank).Pairwise (· < ·))
    (h : ∀ a ∈ l₁, ∀ b ∈ l₂, a.rank < b.rank) :
    (((l₁ ++ l₂).map DOp.rank)).Pairwise (· < ·) := by
  rw [List.map_append, List.pairwise_append]
  refine ⟨h₁, h₂, ?_⟩
  intro x hx y hy
  rw [List.mem_map] at hx hy
  obtain ⟨a, ha, rfl⟩ := hx
  obtain ⟨b, hb, rfl⟩ := hy
  exact h a ha b hb

/-- Trace shape and result bounds of the status/finalizer tail: ranks are
strictly increasing and at least 3. -/
theorem processDeleteStatus_ranks (env : DeleteEnv) :
    ((processDeleteStatus env).1.map DOp.rank).Pairwise (· < ·) ∧
    ∀ op ∈ (processDeleteStatus env).1, 3 ≤ op.rank := by
  cases hrs : env.removeStatus with
  | error e => simp [processDeleteStatus, hrs, DOp.rank]
  | ok u =>
    cases u
    by_cases hf : env.finalizerPresent
    · cases hu : env.update with
      | error e => simp [processDeleteStatus, hrs, hf, hu, DOp.rank]
      | ok v => cases v; simp [processDeleteStatus, hrs, hf, hu, DOp.rank]
    · simp [processDeleteStatus, hrs, hf, DOp.rank]

/-- An error of the status/finalizer tail bounds every issued operation,
and unless it is the finalizer-update failure itself, the finalizer removal
was not issued. -/
theorem processDeleteStatus_error (env : DeleteEnv) :
    ∀ e, (processDeleteStatus env).2 = .error e →
      3 ≤ e.rank ∧ (∀ op ∈ (processDeleteStatus env).1, op.rank ≤ e.rank) ∧
      (e ≠ .updateFailed → DOp.removeFinalizer ∉ (processDeleteStatus env).1) := by
  intro e he
  cases hrs : env.removeStatus with
  | error u =>
    cases u
    simp only [processDeleteStatus, hrs] at he ⊢
    cases he
    simp [DOp.rank, DErr.rank]
  | ok u =>
    cases u
    by_cases hf : env.finalizerPresent
    · cases hu : env.update with
      | error v =>
        cases v
        simp only [processDeleteStatus, hrs, hf, if_true, hu] at he ⊢
        cases he
        simp [DOp.rank, DErr.rank]
      | ok v =>
        cases v
        simp [processDeleteStatus, hrs, hf, hu] at he
    · simp [processDeleteStatus, hrs, hf] at he

/-- The status/finalizer tail succeeds when both its collaborator calls
succeed. -/
theorem processDeleteStatus_ok (env : DeleteEnv)
    (h1 : env.removeStatus = .ok ()) (h2 : env.update = .ok ()) :
    (processDeleteStatus env).2 = .ok () := by
  by_cases hf : env.finalizerPresent <;>
    simp [processDeleteStatus, h1, h2, hf]

/-- Trace shape of the registry-persistence stage: ranks strictly
increasing and at least 2. -/
theorem processDeleteFinish_ranks (env : DeleteEnv) (cfg : Option LvmdConfig) :
    ((processDeleteFinish env cfg).1.map DOp.rank).Pairwise (· < ·) ∧
    ∀ op ∈ (processDeleteFinish env cfg).1, 2 ≤ op.rank := by
  obtain ⟨hsp, hs3⟩ := processDeleteStatus_ranks env
  have hkey : ∀ opHead : DOp, opHead.rank = 2 →
      ((opHead :: (processDeleteStatus env).1).map DOp.rank).Pairwise (· < ·) ∧
      ∀ op ∈ opHead :: (processDeleteStatus env).1, 2 ≤ op.rank := by
    intro opHead hr2
    constructor
    · rw [List.map_cons]
      refine List.Pairwise.cons ?_ hsp
      intro r hr
      rw [List.mem_map] at hr
      obtain ⟨op, hop, rfl⟩ := hr
      have := hs3 op hop
      omega
    · intro op hop
      rcases List.mem_cons.mp hop with rfl | hop
      · omega
      · exact le_trans (by norm_num) (hs3 op hop)
  cases cfg with
  | none =>
    exact ⟨hsp, fun op hop => le_trans (by norm_num) (hs3 op hop)⟩
  | some c =>
    by_cases hlen : 0 < c.deviceClasses.length
    · cases hsv : env.save with
      | error e =>
        have htr : (processDeleteFinish env (some c)).1 =
            [.saveConfig c.deviceClasses] := by
          simp [processDeleteFinish, hlen, andThenD, hsv]
        rw [htr]
        simp [DOp.rank]
      | ok u =>
        cases u
        have htr : (processDeleteFinish env (some c)).1 =
            .saveConfig c.deviceClasses :: (processDeleteStatus env).1 := by
          simp [processDeleteFinish, hlen, andThenD, hsv]
        rw [htr]
        exact hkey _ rfl
    · cases hdc : env.deleteCfg with
      | error e =>
        have htr : (processDeleteFinish env (some c)).1 = [.deleteConfig] := by
          simp [processDeleteFinish, hlen, andThenD, hdc]
        rw [htr]
        simp [DOp.rank]
      | ok u =>
        cases u
        have htr : (processDeleteFinish env (some c)).1 =
            .deleteConfig :: (processDeleteStatus env).1 := by
          simp [processDeleteFinish, hlen, andThenD, hdc]
        rw [htr]
        exact hkey _ rfl

/-- An error of the registry/status/finalizer stage bounds every issued
operation, and unless it is the finalizer-update failure the finalizer
removal was not issued. -/
theorem processDeleteFinish_error (env : DeleteEnv) (cfg : Option LvmdConfig) :
    ∀ e, (processDeleteFinish env cfg).2 = .error e →
      2 ≤ e.rank ∧ (∀ op ∈ (processDeleteFinish env cfg).1, op.rank ≤ e.rank) ∧
      (e ≠ .updateFailed →
        DOp.removeFinalizer ∉ (processDeleteFinish env cfg).1) := by
  intro e he
  cases cfg with
  | none =>
    obtain ⟨h3, hb, hf⟩ := processDeleteStatus_error env e he
    exact ⟨by omega, hb, hf⟩
  | some c =>
    by_cases hlen : 0 < c.deviceClasses.length
    · cases hsv : env.save with
      | error u =>
        cases u
        have htr2 : (processDeleteFinish env (some c)).2 =
            .error .saveFailed := by
          simp [processDeleteFinish, hlen, andThenD, hsv]
        rw [htr2] at he
        injection he with he
        subst he
        have htr1 : (processDeleteFinish env (some c)).1 =
            [.saveConfig c.deviceClasses] := by
          simp [processDeleteFinish, hlen, andThenD, hsv]
        rw [htr1]
        simp [DOp.rank, DErr.rank]
      | ok u =>
        cases u
        have htr1 : (processDeleteFinish env (some c)).1 =
            .saveConfig c.deviceClasses :: (processDeleteStatus env).1 := by
          simp [processDeleteFinish, hlen, andThenD, hsv]
        have htr2 : (processDeleteFinish env (some c)).2 =
            (processDeleteStatus env).2 := by
          simp [processDeleteFinish, hlen, andThenD, hsv]
        rw [htr2] at he
        obtain ⟨h3, hb, hf⟩ := processDeleteStatus_error env e he
        rw [htr1]
        refine ⟨by omega, ?_, ?_⟩
        · intro op hop
          rcases List.mem_cons.mp hop with rfl | hop
          · have h2 : DOp.rank (.saveConfig c.deviceClasses) = 2 := rfl
            omega
          · exact hb op hop
        · intro hne hmem
          rcases List.mem_cons.mp hmem with h0 | hmem
          · exact absurd h0 (by simp)
          · exact hf hne hmem
    · cases hdc : env.deleteCfg with
      | error u =>
        cases u
        have htr2 : (processDeleteFinish env (some c)).2 =
            .error .deleteConfigFailed := by
          simp [processDeleteFinish, hlen, andThenD, hdc]
        rw [htr2] at he
        injection he with he
        subst he
        have htr1 : (processDeleteFinish env (some c)).1 = [.deleteConfig] := by
          simp [processDeleteFinish, hlen, andThenD, hdc]
        rw [htr1]
        simp [DOp.rank, DErr.rank]
      | ok u =>
        cases u
        have htr1 : (processDeleteFinish env (some c)).1 =
            .deleteConfig :: (processDeleteStatus env).1 := by
          simp [processDeleteFinish, hlen, andThenD, hdc]
        have htr2 : (processDeleteFinish env (some c)).2 =
            (processDeleteStatus env).2 := by
          simp [processDeleteFinish, hlen, andThenD, hdc]
        rw [htr2] at he
        obtain ⟨h3, hb, hf⟩ := processDeleteStatus_error env e he
        rw [htr1]
        refine ⟨by omega, ?_, ?_⟩
        · intro op hop
          rcases List.mem_cons.mp hop with rfl | hop
          · have h2 : DOp.rank .deleteConfig = 2 := rfl
            omega
          · exact hb op hop
        · intro hne hmem
          rcases List.mem_cons.mp hmem with h0 | hmem
          · exact absurd h0 (by simp)
          · exact hf hne hmem

/-- The registry/status/finalizer stage succeeds when all of its
collaborator calls succeed. -/
theorem processDeleteFinish_ok (env : DeleteEnv) (cfg : Option LvmdConfig)
    (hsv : env.save = .ok ()) (hdc : env.deleteCfg = .ok ())
    (hrs : env.removeStatus = .ok ()) (hup : env.update = .ok ()) :
    (processDeleteFinish env cfg).2 = .ok () := by
  have hst := processDeleteStatus_ok env hrs hup
  cases cfg with
  | none => exact hst
  | some c =>
    by_cases hlen : 0 < c.deviceClasses.length <;>
      simp [processDeleteFinish, hlen, andThenD, hsv, hdc, hst]

/-- The thin-pool step issues at most the one pool deletion (rank 0); a
pool reported absent, or an unconfigured pool, is a silent no-op. -/
theorem processDeleteThinPool_spec (env : DeleteEnv) :
    (∀ op ∈ (processDeleteThinPool env).1, op.rank = 0) ∧
    ((processDeleteThinPool env).1.map DOp.rank).Pairwise (· < ·) ∧
    (∀ e, (processDeleteThinPool env).2 = .error e → e.rank = 0) ∧
    (∀ tp, env.thinPoolConfig = some tp → env.lvExists = .ok false →
      processDeleteThinPool env = ([], .ok ())) ∧
    (env.thinPoolConfig = none → processDeleteThinPool env = ([], .ok ())) := by
  cases htp : env.thinPoolConfig with
  | none => simp [processDeleteThinPool, htp]
  | some tp =>
    cases hlv : env.lvExists with
    | error u =>
      cases u
      simp [processDeleteThinPool, htp, hlv, DErr.rank]
    | ok b =>
      cases b with
      | false => simp [processDeleteThinPool, htp, hlv]
      | true =>
        cases hdl : env.deleteLV with
        | error u =>
          cases u
          simp [processDeleteThinPool, htp, hlv, hdl, DOp.rank, DErr.rank]
        | ok u =>
          cases u
          simp [processDeleteThinPool, htp, hlv, hdl, DOp.rank, DErr.rank]

/-- Host teardown: ranks at most 1 and strictly increasing; an error bounds
every issued operation; a not-found group is a silent no-op; with the pool
reported absent the group deletion is still issued. -/
theorem processDeleteHost_spec (env : DeleteEnv) :
    (∀ op ∈ (processDeleteHost env).1, op.rank ≤ 1) ∧
    ((processDeleteHost env).1.map DOp.rank).Pairwise (· < ·) ∧
    (∀ e, (processDeleteHost env).2 = .error e →
      e.rank ≤ 1 ∧ ∀ op ∈ (processDeleteHost env).1, op.rank ≤ e.rank) ∧
    (env.getVG = .notFound → processDeleteHost env = ([], .ok ())) ∧
    (∀ vg tp, env.getVG = .found vg → env.thinPoolConfig = some tp →
      env.lvExists = .ok false →
      (processDeleteHost env).1 = [.deleteVG vg.name] ∧
      (env.deleteVG = .ok () → (processDeleteHost env).2 = .ok ())) := by
  obtain ⟨ht0, htp, hterr, htskip, htnone⟩ := processDeleteThinPool_spec env
  cases hvg : env.getVG with
  | err =>
    simp [processDeleteHost, hvg, DErr.rank]
  | notFound =>
    simp [processDeleteHost, hvg]
  | found vg =>
    have hhost : processDeleteHost env =
        andThenD (processDeleteThinPool env)
          (fun _ =>
            ([.deleteVG vg.name],
              match env.deleteVG with
              | .error _ => .error .deleteVGFailed
              | .ok _ => .ok ())) := by
      simp [processDeleteHost, hvg]
    rw [hhost]
    cases hpool : (processDeleteThinPool env).2 with
    | error e =>
      have h1 : (andThenD (processDeleteThinPool env)
          (fun _ =>
            ([.deleteVG vg.name],
              match env.deleteVG with
              | .error _ => Except.error .deleteVGFailed
              | .ok _ => Except.ok ()))) =
          ((processDeleteThinPool env).1, .error e) := by
        simp [andThenD, hpool]
      rw [h1]
      refine ⟨fun op hop => le_trans (by rw [ht0 op hop]) (by norm_num),
        htp, ?_, ?_, ?_⟩
      · intro e' he'
        injection he' with he'
        subst he'
        have := hterr e hpool
        exact ⟨by omega, fun op hop => by rw [ht0 op hop]; omega⟩
      · intro h
        exact absurd h (by simp)
      · intro vg' tp' hvg' htp' hlv'
        have : processDeleteThinPool env = ([], .ok ()) := htskip tp' htp' hlv'
        rw [this] at hpool
        simp at hpool
    | ok u =>
      cases u
      have h1 : (andThenD (processDeleteThinPool env)
          (fun _ =>
            ([.deleteVG vg.name],
              match env.deleteVG with
              | .error _ => Except.error .deleteVGFailed
              | .ok _ => Except.ok ()))) =
          ((processDeleteThinPool env).1 ++ [.deleteVG vg.name],
            match env.deleteVG with
            | .error _ => Except.error .deleteVGFailed
            | .ok _ => Except.ok ()) := by
        simp [andThenD, hpool]
      rw [h1]
      have hmem1 : ∀ op ∈ (processDeleteThinPool env).1 ++ [DOp.deleteVG vg.name],
          op.rank ≤ 1 := by
        intro op hop
        rcases List.mem_append.mp hop with hop | hop
        · rw [ht0 op hop]; norm_num
        · have : op = .deleteVG vg.name := by simpa using hop
          subst this
          simp [DOp.rank]
      refine ⟨hmem1, ?_, ?_, ?_, ?_⟩
      · refine pairwise_rank_append htp (by simp) ?_
        intro a ha b hb
        have : b = DOp.deleteVG vg.name := by simpa using hb
        subst this
        rw [ht0 a ha]
        simp [DOp.rank]
      · intro e' he'
        cases hdv : env.deleteVG with
        | error u =>
          cases u
          rw [hdv] at he'
          simp only [] at he'
          injection he' with he'
          subst he'
          refine ⟨by simp [DErr.rank], ?_⟩
          intro op hop
          have := hmem1 op hop
          simp only [DErr.rank]
          omega
        | ok u =>
          cases u
          rw [hdv] at he'
          simp at he'
      · intro h
        exact absurd h (by simp)
      · intro vg' tp' hvg' htp' hlv'
        have hskip : processDeleteThinPool env = ([], .ok ()) :=
          htskip tp' htp' hlv'
        have hvgeq : vg' = vg := by
          injection hvg' with h
          exact h.symm
        subst hvgeq
        constructor
        · rw [hskip]
          rfl
        · intro hdv
          rw [hdv]

/-- **C1.** Every deletion pass issues its host-mutating and bookkeeping
operations in the mandated order — thin-pool delete (0), volume-group
delete (1), registry save-or-delete (2), node-status delete (3), finalizer
removal (4): the ranks along the trace are strictly increasing.  A failing
step returns its error having issued no operation of a later rank (so the
finalizer is retained whenever the failure is not the finalizer update
itself), while an absent target is skipped without error: a not-found
volume group skips both host deletions and the pass completes when the
remaining steps succeed, and an absent thin pool skips only the pool
deletion while the volume-group deletion is still issued. -/
theorem processDelete_teardown_order (env : DeleteEnv) :
    ((processDelete env).1.map DOp.rank).Pairwise (· < ·) ∧
    (∀ e, (processDelete env).2 = .error e →
      (∀ op ∈ (processDelete env).1, op.rank ≤ e.rank) ∧
      (e ≠ .updateFailed → DOp.removeFinalizer ∉ (processDelete env).1)) ∧
    (env.getVG = .notFound →
      (∀ op ∈ (processDelete env).1, 2 ≤ op.rank) ∧
      (∀ c, env.load = .ok c → env.save = .ok () → env.deleteCfg = .ok () →
        env.removeStatus = .ok () → env.update = .ok () →
        (processDelete env).2 = .ok ())) ∧
    (∀ vg tp, env.getVG = .found vg → env.thinPoolConfig = some tp →
      env.lvExists = .ok false →
      (∀ op ∈ (processDelete env).1, op.rank ≠ 0) ∧
      (∀ c, env.load = .ok c →
        DOp.deleteVG vg.name ∈ (processDelete env).1)) := by
  cases hld : env.load with
  | error u =>
    cases u
    have heq : processDelete env = ([], .error .loadFailed) := by
      simp [processDelete, hld]
    rw [heq]
    refine ⟨by simp, ?_, ?_, ?_⟩
    · intro e he
      injection he with he
      subst he
      exact ⟨by simp, by simp⟩
    · intro _
      refine ⟨by simp, ?_⟩
      intro c hc
      simp at hc
    · intro vg tp _ _ _
      refine ⟨by simp, ?_⟩
      intro c hc
      simp at hc
  | ok cfgOpt =>
    have hpd : processDelete env =
        andThenD (processDeleteHost env)
          (fun _ => processDeleteFinish env (cfgOpt.map (fun c =>
            { c with deviceClasses :=
                removeFirstDeviceClass c.deviceClasses env.vgName }))) := by
      simp [processDelete, hld]
    obtain ⟨hh1, hhp, hherr, hhnf, hhskip⟩ := processDeleteHost_spec env
    cases hh : (processDeleteHost env).2 with
    | error e =>
      have heq : processDelete env = ((processDeleteHost env).1, .error e) := by
        rw [hpd]
        simp [andThenD, hh]
      rw [heq]
      obtain ⟨herank, hbound⟩ := hherr e hh
      refine ⟨hhp, ?_, ?_, ?_⟩
      · intro e' he'
        injection he' with he'
        subst he'
        refine ⟨hbound, ?_⟩
        intro _ hmem
        have h4 : DOp.rank .removeFinalizer = 4 := rfl
        have := hbound _ hmem
        omega
      · intro hnf
        rw [hhnf hnf] at hh
        simp at hh
      · intro vg tp hvg htp hlv
        obtain ⟨htr, _⟩ := hhskip vg tp hvg htp hlv
        rw [htr]
        refine ⟨?_, ?_⟩
        · intro op hop
          have : op = DOp.deleteVG vg.name := by simpa using hop
          subst this
          simp [DOp.rank]
        · intro c _
          simp
    | ok u =>
      cases u
      have heq : processDelete env =
          ((processDeleteHost env).1 ++
            (processDeleteFinish env (cfgOpt.map (fun c =>
              { c with deviceClasses :=
                  removeFirstDeviceClass c.deviceClasses env.vgName }))).1,
            (processDeleteFinish env (cfgOpt.map (fun c =>
              { c with deviceClasses :=
                  removeFirstDeviceClass c.deviceClasses env.vgName }))).2) := by
        rw [hpd]
        simp [andThenD, hh]
      obtain ⟨hfp, hf2⟩ := processDeleteFinish_ranks env (cfgOpt.map (fun c =>
        { c with deviceClasses :=
            removeFirstDeviceClass c.deviceClasses env.vgName }))
      rw [heq]
      refine ⟨?_, ?_, ?_, ?_⟩
      · refine pairwise_rank_append hhp hfp ?_
        intro a ha b hb
        have h1 := hh1 a ha
        have h2 := hf2 b hb
        omega
      · intro e' he'
        have he2 : (processDeleteFinish env (cfgOpt.map (fun c =>
            { c with deviceClasses :=
                removeFirstDeviceClass c.deviceClasses env.vgName }))).2 =
            .error e' := he'
        obtain ⟨h2e, hbf, hff⟩ := processDeleteFinish_error env _ e' he2
        refine ⟨?_, ?_⟩
        · intro op hop
          rcases List.mem_append.mp hop with hop | hop
          · have := hh1 op hop
            omega
          · exact hbf op hop
        · intro hne hmem
          rcases List.mem_append.mp hmem with hmem | hmem
          · have := hh1 _ hmem
            have h4 : DOp.rank .removeFinalizer = 4 := rfl
            omega
          · exact hff hne hmem
      · intro hnf
        have hhost0 := hhnf hnf
        refine ⟨?_, ?_⟩
        · intro op hop
          rcases List.mem_append.mp hop with hop | hop
          · rw [hhost0] at hop
            simp at hop
          · exact hf2 op hop
        · intro c hc hsv hdc hrs hup
          exact processDeleteFinish_ok env _ hsv hdc hrs hup
      · intro vg tp hvg htp hlv
        obtain ⟨htr, _⟩ := hhskip vg tp hvg htp hlv
        refine ⟨?_, ?_⟩
        · intro op hop
          rcases List.mem_append.mp hop with hop | hop
          · rw [htr] at hop
            have : op = DOp.deleteVG vg.name := by simpa using hop
            subst this
            simp [DOp.rank]
          · have := hf2 op hop
            omega
        · intro c _
          refine List.mem_append.mpr (Or.inl ?_)
          rw [htr]
          simp

/-- Witness for C1 at concrete inputs: with every step succeeding the trace
ranks are strictly increasing, and with a not-found volume group the pass
still completes successfully (both teardown deletions skipped). -/
theorem processDelete_teardown_order_witness :
    ((processDelete ⟨.ok (some ⟨"/run/lvmd.sock",
        [⟨"vg1", "vg1", false, true, ⟨"pool", 10⟩⟩]⟩),
        .found ⟨"vg1", ["/dev/sdb"], "100g"⟩, some ⟨"pool", 90, 10⟩,
        .ok true, .ok (), .ok (), .ok (), .ok (), .ok (), true, .ok (),
        "vg1"⟩).1.map DOp.rank).Pairwise (· < ·) ∧
    (processDelete ⟨.ok (some ⟨"/run/lvmd.sock",
        [⟨"vg1", "vg1", false, true, ⟨"pool", 10⟩⟩]⟩),
        .notFound, some ⟨"pool", 90, 10⟩,
        .ok true, .ok (), .ok (), .ok (), .ok (), .ok (), true, .ok (),
        "vg1"⟩).2 = .ok () :=
  ⟨(processDelete_teardown_order _).1,
    ((processDelete_teardown_order _).2.2.1 rfl).2 _ rfl rfl rfl rfl rfl⟩

/-! ## Normal reconcile pass (vgmanager_controller.go, `reconcile`)

The normal (non-deletion) pass after the finalizer is in place: load the
lvmd config, list devices, wipe and re-list if necessary, select and filter
new devices, list volume groups, then either verify the existing setup (no
available devices) or set the status to Progressing and mutate the host.
Collaborator outcomes live in the environment; the trace records status
writes, the host commands issued by `addDevicesToVG`, the
`addThinPoolToVG` call (inside which any thin-pool mutation happens), and
registry saves with their payload. -/

/-- Steps recorded by a normal reconcile pass. -/
inductive ROp where
  | setFailed
  | setProgressing
  | setReady
  | cmd (c : Command)
  | thinCall
  | saveConfig (classes : List DeviceClass)
deriving DecidableEq, Repr

/-- Failures of a normal reconcile pass, one per fallible step. -/
inductive RErr where
  | loadFailed
  | listFailed
  | wipeFailed
  | newDevicesFailed
  | listVGsFailed
  | noDevices
  | validateFailed
  | vgFailed
  | thinFailed
  | validateAfterMutateFailed
  | saveFailed
  | readyStatusFailed
deriving DecidableEq, Repr

/-- `controllers.DefaultLVMdSocket`, the socket written into a freshly
created config (its literal value is immaterial to every claim). -/
def defaultLVMdSocket : String := "/run/lvmd/lvmd.sock"

/-- Environment of a normal reconcile pass: spec fields and collaborator
outcomes.  `filterAvailable` is the injected filter pipeline (the `Filters`
field of the reconciler) producing `devices.Available`. -/
structure ReconcileEnv where
  load : Except Unit (Option LvmdConfig)
  listDevices : Except Unit (List BlockDevice)
  wipe : Except Unit Bool
  relistDevices : Except Unit (List BlockDevice)
  newDevices : Except Unit (List BlockDevice)
  filterAvailable : List BlockDevice → List BlockDevice
  listVGs : Except Unit (List VolumeGroup)
  setProgressing : Except Unit Bool
  setReady : Except Unit Bool
  validate : Except Unit Unit
  vgExec : Except Unit Unit
  addThinPool : Except Unit Unit
  save : Except Unit Unit
  vgName : String
  defaultFlag : Bool
  thinPoolConfig : Option ThinPoolConfig

/-- The mutation tail of the pass (from `addDevicesToVG` on): create or
extend the volume group, ensure the thin pool, re-validate, append the
device class when absent, save the config only when it changed, set
Ready. -/
def reconcileMutate (env : ReconcileEnv) (cfg : LvmdConfig)
    (vgs : List VolumeGroup) (available : List BlockDevice) :
    List ROp × Except RErr Unit :=
  let vgadd := addDevicesToVG vgs env.vgName available env.vgExec
  match vgadd.2 with
  | .error _ => (vgadd.1.map ROp.cmd ++ [.setFailed], .error .vgFailed)
  | .ok _ =>
    match env.addThinPool with
    | .error _ =>
      (vgadd.1.map ROp.cmd ++ [.thinCall, .setFailed], .error .thinFailed)
    | .ok _ =>
      match env.validate with
      | .error _ =>
        (vgadd.1.map ROp.cmd ++ [.thinCall, .setFailed],
          .error .validateAfterMutateFailed)
      | .ok _ =>
        let newClasses := addDeviceClass cfg.deviceClasses env.vgName
          env.defaultFlag env.thinPoolConfig
        let newCfg : LvmdConfig := ⟨cfg.socketName, newClasses⟩
        if newCfg = cfg then
          match env.setReady with
          | .error _ =>
            (vgadd.1.map ROp.cmd ++ [.thinCall, .setReady],
              .error .readyStatusFailed)
          | .ok _ => (vgadd.1.map ROp.cmd ++ [.thinCall, .setReady], .ok ())
        else
          match env.save with
          | .error _ =>
            (vgadd.1.map ROp.cmd ++
              [.thinCall, .saveConfig newClasses, .setFailed],
              .error .saveFailed)
          | .ok _ =>
            match env.setReady with
            | .error _ =>
              (vgadd.1.map ROp.cmd ++
                [.thinCall, .saveConfig newClasses, .setReady],
                .error .readyStatusFailed)
            | .ok _ =>
              (vgadd.1.map ROp.cmd ++
                [.thinCall, .saveConfig newClasses, .setReady], .ok ())

/-- Branch on the available-device list: with none, verify the existing
setup (Failed when the group is missing on the host, otherwise validate
and set Ready); with some, write Progressing first — an updated status
requeues immediately, a failed write is only logged — then mutate. -/
def reconcileWithDevices (env : ReconcileEnv) (cfg : LvmdConfig)
    (vgs : List VolumeGroup) (available : List BlockDevice) :
    List ROp × Except RErr Unit :=
  let vgExistsInLVM := vgs.any (fun vg => vg.name == env.vgName && !vg.pvs.isEmpty)
  if available.isEmpty then
    if !vgExistsInLVM then
      ([.setFailed], .error .noDevices)
    else
      match env.validate with
      | .error _ => ([.setFailed], .error .validateFailed)
      | .ok _ =>
        match env.setReady with
        | .error _ => ([.setReady], .error .readyStatusFailed)
        | .ok _ => ([.setReady], .ok ())
  else
    match env.setProgressing with
    | .error _ =>
      let next := reconcileMutate env cfg vgs available
      (.setProgressing :: next.1, next.2)
    | .ok true => ([.setProgressing], .ok ())
    | .ok false =>
      let next := reconcileMutate env cfg vgs available
      (.setProgressing :: next.1, next.2)

/-- The loaded device classes: those of the config file when present, none
when the file was missing (a fresh default config is used). -/
def loadedClasses : Option LvmdConfig → List DeviceClass
  | some cfg => cfg.deviceClasses
  | none => []

/-- The pass from device selection on (`getNewDevicesToBeAdded`, the filter
pipeline, `ListVGs`, then the device branch). -/
def reconcileAfterListing (env : ReconcileEnv) (cfg : LvmdConfig) :
    List ROp × Except RErr Unit :=
  match env.newDevices with
  | .error _ => ([], .error .newDevicesFailed)
  | .ok newDevs =>
    let available := env.filterAvailable newDevs
    match env.listVGs with
    | .error _ => ([], .error .listVGsFailed)
    | .ok vgs => reconcileWithDevices env cfg vgs available

/-- Shallow embedding of the normal path of `reconcile(ctx, volumeGroup,
nodeStatus)` (deletion dispatch and finalizer addition excluded): config
load, device listing, optional wipe with re-listing, device selection and
filtering, volume-group listing, then `reconcileWithDevices`. -/
def reconcileNormal (env : ReconcileEnv) : List ROp × Except RErr Unit :=
  match env.load with
  | .error _ => ([.setFailed], .error .loadFailed)
  | .ok cfgOpt =>
    let cfg := cfgOpt.getD ⟨defaultLVMdSocket, []⟩
    match env.listDevices with
    | .error _ => ([], .error .listFailed)
    | .ok _ =>
      match env.wipe with
      | .error _ => ([], .error .wipeFailed)
      | .ok wiped =>
        if wiped then
          match env.relistDevices with
          | .error _ => ([], .error .listFailed)
          | .ok _ => reconcileAfterListing env cfg
        else
          reconcileAfterListing env cfg

/-- The temporal check of C2 on a trace: scanning from the start, a
Progressing status write is seen before any host-mutating call (a
volume-group command or the thin-pool call); traces without mutations pass
trivially. -/
def progressingBeforeMutation : List ROp → Bool
  | [] => true
  | .setProgressing :: _ => true
  | .cmd _ :: _ => false
  | .thinCall :: _ => false
  | _ :: rest => progressingBeforeMutation rest

/-- In the device branch the Progressing write always precedes any
mutation: every trace of `reconcileWithDevices` passes the scan. -/
theorem progressingBeforeMutation_withDevices (env : ReconcileEnv)
    (cfg : LvmdConfig) (vgs : List VolumeGroup)
    (available : List BlockDevice) :
    progressingBeforeMutation
      (reconcileWithDevices env cfg vgs available).1 = true := by
  by_cases hav : available.isEmpty = true
  · cases hvg : vgs.any (fun vg => vg.name == env.vgName && !vg.pvs.isEmpty) with
    | false =>
      have : (reconcileWithDevices env cfg vgs available).1 = [.setFailed] := by
        simp [reconcileWithDevices, hav, hvg]
      rw [this]
      rfl
    | true =>
      cases hv : env.validate with
      | error u =>
        cases u
        have : (reconcileWithDevices env cfg vgs available).1 =
            [.setFailed] := by
          simp [reconcileWithDevices, hav, hvg, hv]
        rw [this]
        rfl
      | ok u =>
        cases u
        cases hr : env.setReady with
        | error v =>
          cases v
          have : (reconcileWithDevices env cfg vgs available).1 =
              [.setReady] := by
            simp [reconcileWithDevices, hav, hvg, hv, hr]
          rw [this]
          rfl
        | ok v =>
          have : (reconcileWithDevices env cfg vgs available).1 =
              [.setReady] := by
            simp [reconcileWithDevices, hav, hvg, hv, hr]
          rw [this]
          rfl
  · cases hp : env.setProgressing with
    | error u =>
      cases u
      have : (reconcileWithDevices env cfg vgs available).1 =
          .setProgressing :: (reconcileMutate env cfg vgs available).1 := by
        simp [reconcileWithDevices, hav, hp]
      rw [this]
      rfl
    | ok b =>
      cases b with
      | true =>
        have : (reconcileWithDevices env cfg vgs available).1 =
            [.setProgressing] := by
          simp [reconcileWithDevices, hav, hp]
        rw [this]
        rfl
      | false =>
        have : (reconcileWithDevices env cfg vgs available).1 =
            .setProgressing :: (reconcileMutate env cfg vgs available).1 := by
          simp [reconcileWithDevices, hav, hp]
        rw [this]
        rfl

/-- **C2.** In every normal reconcile pass, the Progressing status write
precedes any host-mutating call: scanning the trace from the start, no
volume-group command and no thin-pool call occurs before a Progressing
write (in particular, in a pass whose available-device set is non-empty,
any issued mutation is preceded by the Progressing write, and a pass with
no available devices issues no mutation at all). -/
theorem reconcile_progressing_before_mutation (env : ReconcileEnv) :
    progressingBeforeMutation (reconcileNormal env).1 = true := by
  cases hld : env.load with
  | error u =>
    cases u
    have : (reconcileNormal env).1 = [.setFailed] := by
      simp [reconcileNormal, hld]
    rw [this]
    rfl
  | ok cfgOpt =>
    cases hl1 : env.listDevices with
    | error u =>
      cases u
      have : (reconcileNormal env).1 = [] := by
        simp [reconcileNormal, hld, hl1]
      rw [this]
      rfl
    | ok d0 =>
      cases hw : env.wipe with
      | error u =>
        cases u
        have : (reconcileNormal env).1 = [] := by
          simp [reconcileNormal, hld, hl1, hw]
        rw [this]
        rfl
      | ok wiped =>
        have htail : ∀ cfg : LvmdConfig,
            progressingBeforeMutation (reconcileAfterListing env cfg).1 =
              true := by
          intro cfg
          cases hnd : env.newDevices with
          | error u =>
            cases u
            have : (reconcileAfterListing env cfg).1 = [] := by
              simp [reconcileAfterListing, hnd]
            rw [this]
            rfl
          | ok newDevs =>
            cases hvgs : env.listVGs with
            | error u =>
              cases u
              have : (reconcileAfterListing env cfg).1 = [] := by
                simp [reconcileAfterListing, hnd, hvgs]
              rw [this]
              rfl
            | ok vgs =>
              have : (reconcileAfterListing env cfg).1 =
                  (reconcileWithDevices env cfg vgs
                    (env.filterAvailable newDevs)).1 := by
                simp [reconcileAfterListing, hnd, hvgs]
              rw [this]
              exact progressingBeforeMutation_withDevices env cfg vgs _
        cases wiped with
        | false =>
          have : (reconcileNormal env).1 =
              (reconcileAfterListing env
                (cfgOpt.getD ⟨defaultLVMdSocket, []⟩)).1 := by
            simp [reconcileNormal, hld, hl1, hw]
          rw [this]
          exact htail _
        | true =>
          cases hrel : env.relistDevices with
          | error u =>
            cases u
            have : (reconcileNormal env).1 = [] := by
              simp [reconcileNormal, hld, hl1, hw, hrel]
            rw [this]
            rfl
          | ok d =>
            have : (reconcileNormal env).1 =
                (reconcileAfterListing env
                  (cfgOpt.getD ⟨defaultLVMdSocket, []⟩)).1 := by
              simp [reconcileNormal, hld, hl1, hw, hrel]
            rw [this]
            exact htail _

/-- The names of the device classes after the first-match removal form a
sublist of the original names. -/
theorem removeFirstDeviceClass_names_sublist (classes : List DeviceClass)
    (n : String) :
    ((removeFirstDeviceClass classes n).map DeviceClass.name).Sublist
      (classes.map DeviceClass.name) := by
  induction classes with
  | nil => simp [removeFirstDeviceClass]
  | cons dc rest ih =>
    simp only [removeFirstDeviceClass]
    by_cases h : (dc.name == n) = true
    · rw [if_pos h]
      simp only [List.map_cons]
      exact List.sublist_cons_self _ _
    · rw [if_neg h]
      simp only [List.map_cons]
      exact List.Sublist.cons₂ _ ih

/-- Appending a device class for an absent name preserves distinctness of
the device-class names. -/
theorem addDeviceClass_names_nodup (classes : List DeviceClass)
    (vg : String) (df : Bool) (tp : Option ThinPoolConfig)
    (h : (classes.map DeviceClass.name).Nodup) :
    ((addDeviceClass classes vg df tp).map DeviceClass.name).Nodup := by
  unfold addDeviceClass
  by_cases hf : classes.any (fun dc => dc.name == vg) = true
  · rw [if_pos hf]
    exact h
  · rw [if_neg hf]
    rw [List.map_append, List.nodup_append]
    refine ⟨h, by simp, ?_⟩
    intro a ha hb
    have hav : a = vg := by simpa using hb
    subst hav
    rw [List.mem_map] at ha
    obtain ⟨dc, hdc, hname⟩ := ha
    have hall : ∀ dc ∈ classes, ¬(dc.name = a) := by
      simpa [List.any_eq_true] using hf
    exact hall dc hdc hname

/-- A registry save in the mutation tail always carries the device classes
produced by the append-if-absent step on the loaded classes. -/
theorem reconcileMutate_saveConfig_mem (env : ReconcileEnv)
    (cfg : LvmdConfig) (vgs : List VolumeGroup)
    (available : List BlockDevice) (l : List DeviceClass) :
    ROp.saveConfig l ∈ (reconcileMutate env cfg vgs available).1 →
    l = addDeviceClass cfg.deviceClasses env.vgName env.defaultFlag
      env.thinPoolConfig := by
  intro hmem
  cases hva : (addDevicesToVG vgs env.vgName available env.vgExec).2 with
  | error e =>
    have htr : (reconcileMutate env cfg vgs available).1 =
        (addDevicesToVG vgs env.vgName available env.vgExec).1.map ROp.cmd ++
          [.setFailed] := by
      simp [reconcileMutate, hva]
    rw [htr] at hmem
    simp at hmem
  | ok u =>
    cases u
    cases htpc : env.addThinPool with
    | error v =>
      cases v
      have htr : (reconcileMutate env cfg vgs available).1 =
          (addDevicesToVG vgs env.vgName available env.vgExec).1.map ROp.cmd ++
            [.thinCall, .setFailed] := by
        simp [reconcileMutate, hva, htpc]
      rw [htr] at hmem
      simp at hmem
    | ok v =>
      cases v
      cases hval : env.validate with
      | error w =>
        cases w
        have htr : (reconcileMutate env cfg vgs available).1 =
            (addDevicesToVG vgs env.vgName available env.vgExec).1.map ROp.cmd ++
              [.thinCall, .setFailed] := by
          simp [reconcileMutate, hva, htpc, hval]
        rw [htr] at hmem
        simp at hmem
      | ok w =>
        cases w
        by_cases hchg : (⟨cfg.socketName, addDeviceClass cfg.deviceClasses
            env.vgName env.defaultFlag env.thinPoolConfig⟩ : LvmdConfig) = cfg
        · cases hrdy : env.setReady with
          | error x =>
            cases x
            have htr : (reconcileMutate env cfg vgs available).1 =
                (addDevicesToVG vgs env.vgName available env.vgExec).1.map
                  ROp.cmd ++ [.thinCall, .setReady] := by
              simp [reconcileMutate, hva, htpc, hval, hchg, hrdy]
            rw [htr] at hmem
            simp at hmem
          | ok x =>
            have htr : (reconcileMutate env cfg vgs available).1 =
                (addDevicesToVG vgs env.vgName available env.vgExec).1.map
                  ROp.cmd ++ [.thinCall, .setReady] := by
              simp [reconcileMutate, hva, htpc, hval, hchg, hrdy]
            rw [htr] at hmem
            simp at hmem
        · cases hsv : env.save with
          | error x =>
            cases x
            have htr : (reconcileMutate env cfg vgs available).1 =
                (addDevicesToVG vgs env.vgName available env.vgExec).1.map
                  ROp.cmd ++ [.thinCall,
                    .saveConfig (addDeviceClass cfg.deviceClasses env.vgName
                      env.defaultFlag env.thinPoolConfig), .setFailed] := by
              simp [reconcileMutate, hva, htpc, hval, hchg, hsv]
            rw [htr] at hmem
            simp at hmem
            exact hmem
          | ok x =>
            cases hrdy : env.setReady with
            | error y =>
              cases y
              have htr : (reconcileMutate env cfg vgs available).1 =
                  (addDevicesToVG vgs env.vgName available env.vgExec).1.map
                    ROp.cmd ++ [.thinCall,
                      .saveConfig (addDeviceClass cfg.deviceClasses env.vgName
                        env.defaultFlag env.thinPoolConfig), .setReady] := by
                simp [reconcileMutate, hva, htpc, hval, hchg, hsv, hrdy]
              rw [htr] at hmem
              simp at hmem
              exact hmem
            | ok y =>
              have htr : (reconcileMutate env cfg vgs available).1 =
                  (addDevicesToVG vgs env.vgName available env.vgExec).1.map
                    ROp.cmd ++ [.thinCall,
                      .saveConfig (addDeviceClass cfg.deviceClasses env.vgName
                        env.defaultFlag env.thinPoolConfig), .setReady] := by
                simp [reconcileMutate, hva, htpc, hval, hchg, hsv, hrdy]
              rw [htr] at hmem
              simp at hmem
              exact hmem

/-- A registry save anywhere in a normal pass carries the device classes
produced by the append-if-absent step on the loaded classes. -/
theorem reconcileNormal_saveConfig_mem (env : ReconcileEnv)
    (cfgOpt : Option LvmdConfig) (l : List DeviceClass)
    (hld : env.load = .ok cfgOpt)
    (hmem : ROp.saveConfig l ∈ (reconcileNormal env).1) :
    l = addDeviceClass (loadedClasses cfgOpt) env.vgName env.defaultFlag
      env.thinPoolConfig := by
  have hw : ∀ (cfg : LvmdConfig) (vgs : List VolumeGroup)
      (available : List BlockDevice),
      ROp.saveConfig l ∈ (reconcileWithDevices env cfg vgs available).1 →
      l = addDeviceClass cfg.deviceClasses env.vgName env.defaultFlag
        env.thinPoolConfig := by
    intro cfg vgs available hm
    by_cases hav : available.isEmpty = true
    · cases hvg : vgs.any (fun vg => vg.name == env.vgName && !vg.pvs.isEmpty) with
      | false =>
        have : (reconcileWithDevices env cfg vgs available).1 = [.setFailed] := by
          simp [reconcileWithDevices, hav, hvg]
        rw [this] at hm
        simp at hm
      | true =>
        cases hv : env.validate with
        | error u =>
          cases u
          have : (reconcileWithDevices env cfg vgs available).1 =
              [.setFailed] := by
            simp [reconcileWithDevices, hav, hvg, hv]
          rw [this] at hm
          simp at hm
        | ok u =>
          cases u
          cases hr : env.setReady with
          | error v =>
            cases v
            have : (reconcileWithDevices env cfg vgs available).1 =
                [.setReady] := by
              simp [reconcileWithDevices, hav, hvg, hv, hr]
            rw [this] at hm
            simp at hm
          | ok v =>
            have : (reconcileWithDevices env cfg vgs available).1 =
                [.setReady] := by
              simp [reconcileWithDevices, hav, hvg, hv, hr]
            rw [this] at hm
            simp at hm
    · cases hp : env.setProgressing with
      | error u =>
        cases u
        have : (reconcileWithDevices env cfg vgs available).1 =
            .setProgressing :: (reconcileMutate env cfg vgs available).1 := by
          simp [reconcileWithDevices, hav, hp]
        rw [this] at hm
        rcases List.mem_cons.mp hm with h0 | hm
        · exact absurd h0 (by simp)
        · exact reconcileMutate_saveConfig_mem env cfg vgs available l hm
      | ok b =>
        cases b with
        | true =>
          have : (reconcileWithDevices env cfg vgs available).1 =
              [.setProgressing] := by
            simp [reconcileWithDevices, hav, hp]
          rw [this] at hm
          simp at hm
        | false =>
          have : (reconcileWithDevices env cfg vgs available).1 =
              .setProgressing :: (reconcileMutate env cfg vgs available).1 := by
            simp [reconcileWithDevices, hav, hp]
          rw [this] at hm
          rcases List.mem_cons.mp hm with h0 | hm
          · exact absurd h0 (by simp)
          · exact reconcileMutate_saveConfig_mem env cfg vgs available l hm
  have htail : ROp.saveConfig l ∈
      (reconcileAfterListing env (cfgOpt.getD ⟨defaultLVMdSocket, []⟩)).1 →
      l = addDeviceClass ((cfgOpt.getD
          (⟨defaultLVMdSocket, []⟩ : LvmdConfig)).deviceClasses) env.vgName
        env.defaultFlag env.thinPoolConfig := by
    intro hm
    cases hnd : env.newDevices with
    | error u =>
      cases u
      have : (reconcileAfterListing env
          (cfgOpt.getD ⟨defaultLVMdSocket, []⟩)).1 = [] := by
        simp [reconcileAfterListing, hnd]
      rw [this] at hm
      simp at hm
    | ok newDevs =>
      cases hvgs : env.listVGs with
      | error u =>
        cases u
        have : (reconcileAfterListing env
            (cfgOpt.getD ⟨defaultLVMdSocket, []⟩)).1 = [] := by
          simp [reconcileAfterListing, hnd, hvgs]
        rw [this] at hm
        simp at hm
      | ok vgs =>
        have : (reconcileAfterListing env
            (cfgOpt.getD ⟨defaultLVMdSocket, []⟩)).1 =
            (reconcileWithDevices env (cfgOpt.getD ⟨defaultLVMdSocket, []⟩)
              vgs (env.filterAvailable newDevs)).1 := by
          simp [reconcileAfterListing, hnd, hvgs]
        rw [this] at hm
        exact hw _ vgs _ hm
  have hloaded : (cfgOpt.getD (⟨defaultLVMdSocket, []⟩ : LvmdConfig)).deviceClasses =
      loadedClasses cfgOpt := by
    cases cfgOpt <;> rfl
  cases hl1 : env.listDevices with
  | error u =>
    cases u
    have : (reconcileNormal env).1 = [] := by
      simp [reconcileNormal, hld, hl1]
    rw [this] at hmem
    simp at hmem
  | ok d0 =>
    cases hwp : env.wipe with
    | error u =>
      cases u
      have : (reconcileNormal env).1 = [] := by
        simp [reconcileNormal, hld, hl1, hwp]
      rw [this] at hmem
      simp at hmem
    | ok wiped =>
      cases wiped with
      | false =>
        have : (reconcileNormal env).1 =
            (reconcileAfterListing env
              (cfgOpt.getD ⟨defaultLVMdSocket, []⟩)).1 := by
          simp [reconcileNormal, hld, hl1, hwp]
        rw [this] at hmem
        rw [← hloaded]
        exact htail hmem
      | true =>
        cases hrel : env.relistDevices with
        | error u =>
          cases u
          have : (reconcileNormal env).1 = [] := by
            simp [reconcileNormal, hld, hl1, hwp, hrel]
          rw [this] at hmem
          simp at hmem
        | ok d =>
          have : (reconcileNormal env).1 =
              (reconcileAfterListing env
                (cfgOpt.getD ⟨defaultLVMdSocket, []⟩)).1 := by
            simp [reconcileNormal, hld, hl1, hwp, hrel]
          rw [this] at hmem
          rw [← hloaded]
          exact htail hmem

/-- A registry save in the registry/status/finalizer stage carries exactly
the device classes of the config handed to it. -/
theorem processDeleteFinish_saveConfig_mem (env : DeleteEnv)
    (cfg : Option LvmdConfig) (l : List DeviceClass)
    (hmem : DOp.saveConfig l ∈ (processDeleteFinish env cfg).1) :
    ∃ c, cfg = some c ∧ l = c.deviceClasses := by
  obtain ⟨_, hs3⟩ := processDeleteStatus_ranks env
  cases cfg with
  | none =>
    have := hs3 _ hmem
    simp [DOp.rank] at this
  | some c =>
    refine ⟨c, rfl, ?_⟩
    by_cases hlen : 0 < c.deviceClasses.length
    · cases hsv : env.save with
      | error u =>
        cases u
        have htr : (processDeleteFinish env (some c)).1 =
            [.saveConfig c.deviceClasses] := by
          simp [processDeleteFinish, hlen, andThenD, hsv]
        rw [htr] at hmem
        simpa using hmem
      | ok u =>
        cases u
        have htr : (processDeleteFinish env (some c)).1 =
            .saveConfig c.deviceClasses :: (processDeleteStatus env).1 := by
          simp [processDeleteFinish, hlen, andThenD, hsv]
        rw [htr] at hmem
        rcases List.mem_cons.mp hmem with h0 | hmem
        · injection h0
        · have := hs3 _ hmem
          simp [DOp.rank] at this
    · cases hdc : env.deleteCfg with
      | error u =>
        cases u
        have htr : (processDeleteFinish env (some c)).1 = [.deleteConfig] := by
          simp [processDeleteFinish, hlen, andThenD, hdc]
        rw [htr] at hmem
        simp at hmem
      | ok u =>
        cases u
        have htr : (processDeleteFinish env (some c)).1 =
            .deleteConfig :: (processDeleteStatus env).1 := by
          simp [processDeleteFinish, hlen, andThenD, hdc]
        rw [htr] at hmem
        rcases List.mem_cons.mp hmem with h0 | hmem
        · exact absurd h0 (by simp)
        · have := hs3 _ hmem
          simp [DOp.rank] at this

/-- A registry save anywhere in a deletion pass carries the loaded device
classes with the first entry named after the volume group removed. -/
theorem processDelete_saveConfig_mem (denv : DeleteEnv)
    (l : List DeviceClass)
    (hmem : DOp.saveConfig l ∈ (processDelete denv).1) :
    ∃ c0, denv.load = .ok (some c0) ∧
      l = removeFirstDeviceClass c0.deviceClasses denv.vgName := by
  cases hld : denv.load with
  | error u =>
    cases u
    have heq : processDelete denv = ([], .error .loadFailed) := by
      simp [processDelete, hld]
    rw [heq] at hmem
    simp at hmem
  | ok cfgOpt =>
    have hpd : processDelete denv =
        andThenD (processDeleteHost denv)
          (fun _ => processDeleteFinish denv (cfgOpt.map (fun c =>
            { c with deviceClasses :=
                removeFirstDeviceClass c.deviceClasses denv.vgName }))) := by
      simp [processDelete, hld]
    obtain ⟨hh1, _, _, _, _⟩ := processDeleteHost_spec denv
    have hnothost : DOp.saveConfig l ∉ (processDeleteHost denv).1 := by
      intro hm
      have := hh1 _ hm
      simp [DOp.rank] at this
    rw [hpd] at hmem
    cases hh : (processDeleteHost denv).2 with
    | error e =>
      have heq : (andThenD (processDeleteHost denv)
          (fun _ => processDeleteFinish denv (cfgOpt.map (fun c =>
            { c with deviceClasses :=
                removeFirstDeviceClass c.deviceClasses denv.vgName })))).1 =
          (processDeleteHost denv).1 := by
        simp [andThenD, hh]
      rw [heq] at hmem
      exact absurd hmem hnothost
    | ok u =>
      cases u
      have heq : (andThenD (processDeleteHost denv)
          (fun _ => processDeleteFinish denv (cfgOpt.map (fun c =>
            { c with deviceClasses :=
                removeFirstDeviceClass c.deviceClasses denv.vgName })))).1 =
          (processDeleteHost denv).1 ++
            (processDeleteFinish denv (cfgOpt.map (fun c =>
              { c with deviceClasses :=
                  removeFirstDeviceClass c.deviceClasses denv.vgName }))).1 := by
        simp [andThenD, hh]
      rw [heq] at hmem
      rcases List.mem_append.mp hmem with hm | hm
      · exact absurd hm hnothost
      · obtain ⟨c, hc, hl⟩ := processDeleteFinish_saveConfig_mem denv _ l hm
        rw [Option.map_eq_some'] at hc
        obtain ⟨c0, hc0, hcc⟩ := hc
        refine ⟨c0, by rw [hc0], ?_⟩
        rw [hl, ← hcc]

/-- **C10.** The registry never gains a duplicate device class: the
reconcile pass appends an entry only when no entry with the volume group's
name exists, the delete pass removes at most one entry, and consequently
every config saved by either pass has pairwise-distinct device-class names
whenever the loaded config did. -/
theorem registry_device_classes_nodup (env : ReconcileEnv)
    (denv : DeleteEnv) :
    (∀ (classes : List DeviceClass) (df : Bool) (tp : Option ThinPoolConfig),
      classes.any (fun dc => dc.name == env.vgName) = true →
      addDeviceClass classes env.vgName df tp = classes) ∧
    (∀ (classes : List DeviceClass) (n : String),
      removeFirstDeviceClass classes n = classes ∨
      (removeFirstDeviceClass classes n).length + 1 = classes.length) ∧
    (∀ cfgOpt l, env.load = .ok cfgOpt →
      ROp.saveConfig l ∈ (reconcileNormal env).1 →
      ((loadedClasses cfgOpt).map DeviceClass.name).Nodup →
      (l.map DeviceClass.name).Nodup) ∧
    (∀ cfgOpt l, denv.load = .ok cfgOpt →
      DOp.saveConfig l ∈ (processDelete denv).1 →
      ((loadedClasses cfgOpt).map DeviceClass.name).Nodup →
      (l.map DeviceClass.name).Nodup) := by
  refine ⟨?_, ?_, ?_, ?_⟩
  · intro classes df tp hf
    unfold addDeviceClass
    rw [if_pos hf]
  · intro classes n
    induction classes with
    | nil => exact Or.inl rfl
    | cons dc rest ih =>
      simp only [removeFirstDeviceClass]
      by_cases h : (dc.name == n) = true
      · rw [if_pos h]
        right
        simp
      · rw [if_neg h]
        rcases ih with ih | ih
        · left
          rw [ih]
        · right
          simp only [List.length_cons]
          omega
  · intro cfgOpt l hld hmem hnd
    have hl := reconcileNormal_saveConfig_mem env cfgOpt l hld hmem
    rw [hl]
    exact addDeviceClass_names_nodup _ _ _ _ hnd
  · intro cfgOpt l hld hmem hnd
    obtain ⟨c0, hc0, hl⟩ := processDelete_saveConfig_mem denv l hmem
    rw [hld] at hc0
    injection hc0 with hc0
    subst hc0
    rw [hl]
    exact List.Nodup.sublist
      (removeFirstDeviceClass_names_sublist c0.deviceClasses denv.vgName) hnd

/-- Witness for C10 at a concrete input: a deletion pass over a loaded
config with distinct names `vg1`, `vg2` saves the config with `vg1`
removed, and the saved names remain distinct. -/
theorem registry_device_classes_nodup_witness :
    (([⟨"vg2", "vg2", false, false, ⟨"", 0⟩⟩] :
        List DeviceClass).map DeviceClass.name).Nodup :=
  (registry_device_classes_nodup
      ⟨.ok none, .ok [], .ok false, .ok [], .ok [], id, .ok [], .ok false,
        .ok false, .ok (), .ok (), .ok (), .ok (), "vg1", false, none⟩
      ⟨.ok (some ⟨"/run/lvmd.sock",
        [⟨"vg1", "vg1", false, false, ⟨"", 0⟩⟩,
         ⟨"vg2", "vg2", false, false, ⟨"", 0⟩⟩]⟩),
        .notFound, none, .ok false, .ok (), .ok (), .ok (), .ok (), .ok (),
        true, .ok (), "vg1"⟩).2.2.2
    (some ⟨"/run/lvmd.sock",
      [⟨"vg1", "vg1", false, false, ⟨"", 0⟩⟩,
       ⟨"vg2", "vg2", false, false, ⟨"", 0⟩⟩]⟩)
    [⟨"vg2", "vg2", false, false, ⟨"", 0⟩⟩]
    rfl
    (by decide)
    (by decide)

end VgManager
